import Mathlib

/-!
# CellMesh: a shallow embedding of `src/CellMesh.cpp`

The C++ class `CellMesh` owns a triangulated closed surface: node positions, faces
(index triples), derived edges, edge→face and node→face adjacency, cached areas and
normals, and two frozen initial values.  This file embeds the member functions of
`CellMesh.cpp` as Lean functions on an explicit state record.

Conventions of the embedding

* `double` is replaced by an arbitrary linearly ordered field `K` (exact arithmetic);
  every statement therefore holds for `ℝ` in particular.  Square roots (`std::sqrt`,
  `std::hypot`, Eigen `norm`/`normalized`) are taken through a function `sqrt : K → K`
  passed explicitly, instantiated with `Real.sqrt` where a concrete value is needed.
* `int` node indices are `Int`; loop counters and face indices, which never go
  negative, are `Nat`.
* `std::vector<T>` is `List T`; `v[i]` with `i` outside the vector is undefined
  behaviour in C++ and is `none` in the embedding, so functions that index return `Option`.
* A quotient with divisor zero, an infinity or NaN in `double`, has the value `0` in `K`;
  statements about a quotient say when its divisor is not zero.
* `std::set<T>` is its iteration sequence: a strictly ascending list; `insert` is `setInsert`.
-/

/-! ## Vectors (the operations of `Eigen::Vector3d` used by the source) -/

/-- A 3D position or direction, the `VectorType` (`Eigen::Vector3d`) of the source. -/
structure Vec3 (K : Type) where
  x : K
  y : K
  z : K
deriving DecidableEq

namespace Vec3

variable {K : Type} [LinearOrderedField K]

/-- The vector `VectorType::Zero()`. -/
def zero : Vec3 K := ⟨0, 0, 0⟩

/-- Componentwise sum, `a + b`. -/
def add (a b : Vec3 K) : Vec3 K := ⟨a.x + b.x, a.y + b.y, a.z + b.z⟩

/-- Componentwise difference, `a - b`. -/
def sub (a b : Vec3 K) : Vec3 K := ⟨a.x - b.x, a.y - b.y, a.z - b.z⟩

/-- Division by a scalar, `a / s` (also `a /= s`). -/
def divScalar (a : Vec3 K) (s : K) : Vec3 K := ⟨a.x / s, a.y / s, a.z / s⟩

/-- Scalar product, `a.dot(b)`. -/
def dot (a b : Vec3 K) : K := a.x * b.x + a.y * b.y + a.z * b.z

/-- Vector product, `a.cross(b)`. -/
def cross (a b : Vec3 K) : Vec3 K :=
  ⟨a.y * b.z - a.z * b.y, a.z * b.x - a.x * b.z, a.x * b.y - a.y * b.x⟩

/-- Squared Euclidean length, `a.squaredNorm()`. -/
def squaredNorm (a : Vec3 K) : K := a.dot a

/-- Euclidean length, `a.norm()`: the square root of the squared norm. -/
def norm (sqrt : K → K) (a : Vec3 K) : K := sqrt a.squaredNorm

/-- Eigen's `a.normalized()`: `a / sqrt(z)` when `z = a.squaredNorm() > 0`, and a copy of
`a` itself otherwise (so the zero vector is returned unchanged). -/
def normalized (sqrt : K → K) (a : Vec3 K) : Vec3 K :=
  if 0 < a.squaredNorm then a.divScalar (sqrt a.squaredNorm) else a

end Vec3

namespace CellMesh

/-! ## Containers -/

/-- The `insert` of a `std::set` kept as its ascending iteration sequence: `x` is put at
its place in the order `lt`, and nothing changes when an equivalent element is present. -/
def setInsert {α : Type} (lt : α → α → Bool) (x : α) : List α → List α
  | [] => [x]
  | y :: ys =>
    if lt x y then x :: y :: ys
    else if lt y x then y :: setInsert lt x ys
    else y :: ys

/-- The update `v[i] = f(v[i])` of a vector; positions other than `i` are kept. -/
def modifyAt {α : Type} (f : α → α) : Nat → List α → List α
  | _, [] => []
  | 0, a :: as => f a :: as
  | i + 1, a :: as => a :: modifyAt f i as

/-- Runs `f` over a list from left to right and collects the results; `none` as soon as
one call is `none`. -/
def mapOpt {α β : Type} (f : α → Option β) : List α → Option (List β)
  | [] => some []
  | a :: as =>
    match f a with
    | none => none
    | some b =>
      match mapOpt f as with
      | none => none
      | some bs => some (b :: bs)

/-- A loop `for x in l: acc = f(acc, x)` whose body may be undefined. -/
def foldOpt {α β : Type} (f : β → α → Option β) : β → List α → Option β
  | acc, [] => some acc
  | acc, a :: as =>
    match f acc a with
    | none => none
    | some acc1 => foldOpt f acc1 as

end CellMesh

/-! ## Data model -/

/-- Modelled from the spec: the header declaring `FaceType` is not among the sources; a
face is an ordered triple of node indices, read in the source as `face[0]`, `face[1]`,
`face[2]`. -/
structure FaceType where
  v0 : Int
  v1 : Int
  v2 : Int
deriving DecidableEq

/-- Modelled from the spec: the header declaring `EdgeType` is not among the sources; an
edge is a pair of node indices, built in the source with `std::make_pair`. -/
abbrev EdgeType := Int × Int

/-- Modelled from the spec: the header declaring `IndexSet` is not among the sources; a
set of face indices, kept as its ascending iteration sequence. -/
abbrev IndexSet := List Nat

namespace CellMesh

/-- The order of `std::set<int>`. -/
def indexLt (a b : Nat) : Bool := decide (a < b)

/-- The order of `std::set<EdgeType>`: `std::pair`'s lexicographic `operator<`. -/
def edgeLt (a b : EdgeType) : Bool :=
  decide (a.1 < b.1) || (!decide (b.1 < a.1) && decide (a.2 < b.2))

end CellMesh

/-- The data members of `CellMesh`, as `CellMesh.cpp` uses them (the class declaration
itself is in a header that is not among the sources). -/
structure CellMesh (K : Type) where
  nodes_ : List (Vec3 K)
  faces_ : List FaceType
  edges_ : List EdgeType
  adjacent_faces_for_edges_ : List IndexSet
  adjacent_faces_for_nodes_ : List IndexSet
  surface_areas_for_faces_ : List K
  surface_areas_for_nodes_ : List K
  normals_for_faces_ : List (Vec3 K)
  normals_for_nodes_ : List (Vec3 K)
  initial_cell_surface_area_ : K
  initial_cell_volume_ : K

namespace CellMesh

/-! ## Topology construction (constructor, lines 64–103) -/

/-- The three canonical edges `e_1`, `e_2`, `e_3` of a face (lines 75–77). -/
def canonicalEdges (face : FaceType) : List EdgeType :=
  [(min face.v0 face.v1, max face.v0 face.v1),
   (min face.v1 face.v2, max face.v1 face.v2),
   (min face.v0 face.v2, max face.v0 face.v2)]

/-- The set `edges_per_face{e_1, e_2, e_3}` (line 78), in iteration order. -/
def edgesPerFace (face : FaceType) : List EdgeType :=
  (canonicalEdges face).foldl (fun s e => setInsert edgeLt e s) []

/-- The position `std::find` returns for `edge` in `edges_`, if any (lines 82–85). -/
def findEdge (edge : EdgeType) : List EdgeType → Option Nat
  | [] => none
  | e :: es => if e = edge then some 0 else (findEdge edge es).map (· + 1)

/-- The body of the loop over `edges_per_face` (lines 82–91) for face `f`.  The index found
is always inside `adjacent_faces_for_edges_`: the two vectors start empty and grow
together (`edgeInv_buildEdges`). -/
def insertEdge (f : Nat) (st : List EdgeType × List IndexSet) (edge : EdgeType) :
    List EdgeType × List IndexSet :=
  match findEdge edge st.1 with
  | some edge_idx => (st.1, modifyAt (setInsert indexLt f) edge_idx st.2)
  | none => (st.1 ++ [edge], st.2 ++ [[f]])

/-- The body of the loop over faces (lines 71–92) for the face at index `f`. -/
def processFace (f : Nat) (face : FaceType) (st : List EdgeType × List IndexSet) :
    List EdgeType × List IndexSet :=
  (edgesPerFace face).foldl (insertEdge f) st

/-- The loop `for (f = ...; f < faces_.size(); ++f)` of lines 69–93, started at counter `f`
on the faces that remain. -/
def edgeLoop : List FaceType → Nat → List EdgeType × List IndexSet →
    List EdgeType × List IndexSet
  | [], _, st => st
  | face :: rest, f, st => edgeLoop rest (f + 1) (processFace f face st)

/-- The edge construction of the constructor: `edges_` and `adjacent_faces_for_edges_`
start empty and the loop runs over all faces. -/
def buildEdges (faces : List FaceType) : List EdgeType × List IndexSet :=
  edgeLoop faces 0 ([], [])

/-- The statement `adjacent_faces_for_nodes_[vertex].insert(f)` (line 101). -/
def insertAdjacentFace (f : Nat) (adj : List IndexSet) (vertex : Int) :
    Option (List IndexSet) :=
  if 0 ≤ vertex ∧ vertex.toNat < adj.length then
    some (modifyAt (setInsert indexLt f) vertex.toNat adj)
  else none

/-- The vertices of a face in the order the range-`for` of line 99 visits them. -/
def faceVertices (face : FaceType) : List Int := [face.v0, face.v1, face.v2]

/-- The loop over faces of lines 97–103, started at counter `f` on the faces that remain. -/
def nodeAdjacencyLoop : List FaceType → Nat → List IndexSet → Option (List IndexSet)
  | [], _, adj => some adj
  | face :: rest, f, adj =>
    match foldOpt (insertAdjacentFace f) adj (faceVertices face) with
    | none => none
    | some adj1 => nodeAdjacencyLoop rest (f + 1) adj1

/-- The node adjacency of the constructor: `resize(n_nodes)` then the loop (lines 96–103). -/
def buildNodeAdjacency (n_nodes : Nat) (faces : List FaceType) : Option (List IndexSet) :=
  nodeAdjacencyLoop faces 0 (List.replicate n_nodes [])

/-! ## Geometry (lines 167–327) -/

variable {K : Type} [LinearOrderedField K]

/-- The lookup `nodes_[n]` with an `int` index. -/
def nodeAt (nodes : List (Vec3 K)) (n : Int) : Option (Vec3 K) :=
  if n < 0 then none else nodes[n.toNat]?

/-- Heron's formula on three points (lines 202–206). -/
def heron (sqrt : K → K) (p_0 p_1 p_2 : Vec3 K) : K :=
  let a := (p_0.sub p_1).norm sqrt
  let b := (p_1.sub p_2).norm sqrt
  let c := (p_2.sub p_0).norm sqrt
  let s := (a + b + c) / 2
  sqrt (s * (s - a) * (s - b) * (s - c))

/-- `CellMesh::FaceArea` (lines 198–208). -/
def FaceArea (sqrt : K → K) (m : CellMesh K) (face_index : Nat) : Option K :=
  match m.faces_[face_index]? with
  | none => none
  | some face =>
    match nodeAt m.nodes_ face.v0, nodeAt m.nodes_ face.v1, nodeAt m.nodes_ face.v2 with
    | some p_0, some p_1, some p_2 => some (heron sqrt p_0 p_1 p_2)
    | _, _, _ => none

/-- `CellMesh::CalculateFaceSurfaceAreas` (lines 167–174): the cache of per-face areas is
replaced by `FaceArea(f)` for `f = 0, ..., faces_.size() - 1`. -/
def CalculateFaceSurfaceAreas (sqrt : K → K) (m : CellMesh K) : Option (CellMesh K) :=
  match mapOpt (FaceArea sqrt m) (List.range m.faces_.length) with
  | none => none
  | some areas => some { m with surface_areas_for_faces_ := areas }

/-- The inner loop of `CalculateNodeSurfaceAreas` (lines 185–189). -/
def totalArea (areas : List K) (adjacent : IndexSet) : Option K :=
  foldOpt (fun total_area face_index =>
    match areas[face_index]? with
    | none => none
    | some a => some (total_area + a)) 0 adjacent

/-- The body of the outer loop of `CalculateNodeSurfaceAreas` for node `i` (lines 185–190). -/
def nodeSurfaceArea (m : CellMesh K) (i : Nat) : Option K :=
  match m.adjacent_faces_for_nodes_[i]? with
  | none => none
  | some adjacent =>
    match totalArea m.surface_areas_for_faces_ adjacent with
    | none => none
    | some total_area => some (total_area / (adjacent.length : K))

/-- `CellMesh::CalculateNodeSurfaceAreas` (lines 180–193); the reference it returns is the
field `surface_areas_for_nodes_` of the resulting state. -/
def CalculateNodeSurfaceAreas (m : CellMesh K) : Option (CellMesh K) :=
  match mapOpt (nodeSurfaceArea m) (List.range m.nodes_.length) with
  | none => none
  | some areas => some { m with surface_areas_for_nodes_ := areas }

/-- `CellMesh::GetInitialSurfaceArea` (lines 210–213). -/
def GetInitialSurfaceArea (m : CellMesh K) : K := m.initial_cell_surface_area_

/-- `CellMesh::GetInitialVolume` (lines 215–218). -/
def GetInitialVolume (m : CellMesh K) : K := m.initial_cell_volume_

/-- `CellMesh::SetInitialVolume` (lines 220–223). -/
def SetInitialVolume (m : CellMesh K) (new_volume : K) : CellMesh K :=
  { m with initial_cell_volume_ := new_volume }

/-- `CellMesh::CalculateCellSurfaceArea` (lines 228–231): `std::accumulate` from `0.0`. -/
def CalculateCellSurfaceArea (m : CellMesh K) : K :=
  m.surface_areas_for_faces_.foldl (· + ·) 0

/-- The centre of mass both `CalculateCellVolume` (lines 235–240) and `MakeFacesOriented`
(lines 260–265) compute: the nodes are added up from zero and the sum is divided by
`nodes_.size()`. -/
def centerOfMass (nodes : List (Vec3 K)) : Vec3 K :=
  (nodes.foldl Vec3.add Vec3.zero).divScalar (nodes.length : K)

/-- The term one face adds to the volume (line 253). -/
def volumeTerm (p_0 p_1 p_2 p_3 : Vec3 K) : K :=
  (p_1.sub p_0).dot ((p_2.sub p_0).cross (p_3.sub p_0)) / 6

/-- The loop over faces of `CalculateCellVolume` (lines 242–255) with reference point
`p_0`. -/
def volumeAbout (p_0 : Vec3 K) (nodes : List (Vec3 K)) (faces : List FaceType) : Option K :=
  foldOpt (fun volume face =>
    match nodeAt nodes face.v0, nodeAt nodes face.v1, nodeAt nodes face.v2 with
    | some p_1, some p_2, some p_3 => some (volume + volumeTerm p_0 p_1 p_2 p_3)
    | _, _, _ => none) 0 faces

/-- `CellMesh::CalculateCellVolume` (lines 233–256): the loop, about the centre of mass. -/
def CalculateCellVolume (m : CellMesh K) : Option K :=
  volumeAbout (centerOfMass m.nodes_) m.nodes_ m.faces_

/-- The body of the loop of `MakeFacesOriented` (lines 271–282). -/
def orientFace (p_0 : Vec3 K) (nodes : List (Vec3 K)) (face : FaceType) : Option FaceType :=
  match nodeAt nodes face.v0, nodeAt nodes face.v1, nodeAt nodes face.v2 with
  | some p_1, some p_2, some p_3 =>
    let p_12 := p_2.sub p_1
    let p_23 := p_3.sub p_2
    if (p_1.sub p_0).dot (p_12.cross p_23) < 0 then
      some ⟨face.v0, face.v2, face.v1⟩
    else some face
  | _, _, _ => none

/-- `CellMesh::MakeFacesOriented` (lines 258–284). -/
def MakeFacesOriented (m : CellMesh K) : Option (CellMesh K) :=
  match mapOpt (orientFace (centerOfMass m.nodes_) m.nodes_) m.faces_ with
  | none => none
  | some faces => some { m with faces_ := faces }

/-- The body of the loop of `CalculateFaceNormals` (lines 297–304). -/
def faceNormal (sqrt : K → K) (nodes : List (Vec3 K)) (face : FaceType) : Option (Vec3 K) :=
  match nodeAt nodes face.v0, nodeAt nodes face.v1, nodeAt nodes face.v2 with
  | some p_1, some p_2, some p_3 =>
    some (((p_2.sub p_1).cross (p_3.sub p_2)).normalized sqrt)
  | _, _, _ => none

/-- `CellMesh::CalculateFaceNormals` (lines 289–307); the reference it returns is the field
`normals_for_faces_` of the resulting state. -/
def CalculateFaceNormals (sqrt : K → K) (m : CellMesh K) : Option (CellMesh K) :=
  match mapOpt (faceNormal sqrt m.nodes_) m.faces_ with
  | none => none
  | some normals => some { m with normals_for_faces_ := normals }

/-- The inner loop of `CalculateNodeNormals` (lines 318–322). -/
def sumNormals (normals : List (Vec3 K)) (adjacent : IndexSet) : Option (Vec3 K) :=
  foldOpt (fun node_normal face_index =>
    match normals[face_index]? with
    | none => none
    | some n => some (node_normal.add n)) Vec3.zero adjacent

/-- The body of the outer loop of `CalculateNodeNormals` for node `i` (lines 318–324). -/
def nodeNormal (sqrt : K → K) (m : CellMesh K) (i : Nat) : Option (Vec3 K) :=
  match m.adjacent_faces_for_nodes_[i]? with
  | none => none
  | some adjacent =>
    match sumNormals m.normals_for_faces_ adjacent with
    | none => none
    | some node_normal => some (node_normal.normalized sqrt)

/-- `CellMesh::CalculateNodeNormals` (lines 312–327); the reference it returns is the field
`normals_for_nodes_` of the resulting state. -/
def CalculateNodeNormals (sqrt : K → K) (m : CellMesh K) : Option (CellMesh K) :=
  match CalculateFaceNormals sqrt m with
  | none => none
  | some m1 =>
    match mapOpt (nodeNormal sqrt m1) (List.range m1.nodes_.length) with
    | none => none
    | some normals => some { m1 with normals_for_nodes_ := normals }

/-! ## The constructor (lines 28–118) -/

/-- One vertex record `x y z` rescaled to the sphere of radius `radius` (lines 51–54);
`std::hypot(x, y, z)` is the square root of the sum of squares. -/
def rescaleVertex (sqrt : K → K) (radius : K) (v : K × K × K) : Vec3 K :=
  let norm := sqrt (v.1 * v.1 + v.2.1 * v.2.1 + v.2.2 * v.2.2)
  let scaling := radius / norm
  ⟨v.1 * scaling, v.2.1 * scaling, v.2.2 * scaling⟩

/-- One face record `n_nodes_per_face n_0 n_1 n_2` stored as a face (lines 60–61); the
first number is read and not used. -/
def readFace (r : Int × Int × Int × Int) : FaceType := ⟨r.2.1, r.2.2.1, r.2.2.2⟩

/-- The state reached at line 104: nodes and faces loaded, edges and both adjacency
structures built, the caches empty as the member initialisers leave them.  The records
are given as lists, so `n_nodes` and `n_faces` of the counts line are their lengths.
`initial_cell_surface_area_` has no initialiser; it is assigned at line 107 before it is
read, and is `0` here. -/
def loadTopology (sqrt : K → K) (radius : K) (vertexRecords : List (K × K × K))
    (faceRecords : List (Int × Int × Int × Int)) : Option (CellMesh K) :=
  let nodes := vertexRecords.map (rescaleVertex sqrt radius)
  let faces := faceRecords.map readFace
  let edges := buildEdges faces
  match buildNodeAdjacency vertexRecords.length faces with
  | none => none
  | some adjacent =>
    some { nodes_ := nodes, faces_ := faces, edges_ := edges.1,
           adjacent_faces_for_edges_ := edges.2, adjacent_faces_for_nodes_ := adjacent,
           surface_areas_for_faces_ := [], surface_areas_for_nodes_ := [],
           normals_for_faces_ := [], normals_for_nodes_ := [],
           initial_cell_surface_area_ := 0, initial_cell_volume_ := 0 }

/-- The geometry pipeline of the constructor (lines 105–110). -/
def initGeometry (sqrt : K → K) (m : CellMesh K) : Option (CellMesh K) :=
  match CalculateFaceSurfaceAreas sqrt m with
  | none => none
  | some m1 =>
    match CalculateNodeSurfaceAreas m1 with
    | none => none
    | some m2 =>
      let m3 := { m2 with initial_cell_surface_area_ := CalculateCellSurfaceArea m2 }
      match CalculateCellVolume m3 with
      | none => none
      | some volume =>
        let m4 := { m3 with initial_cell_volume_ := volume }
        match MakeFacesOriented m4 with
        | none => none
        | some m5 => CalculateNodeNormals sqrt m5

/-- The constructor `CellMesh(off_fine_name, parameters)` on a file that opened, given the
records read from it and `parameters.GetRadius()`. -/
def construct (sqrt : K → K) (radius : K) (vertexRecords : List (K × K × K))
    (faceRecords : List (Int × Int × Int × Int)) : Option (CellMesh K) :=
  match loadTopology sqrt radius vertexRecords faceRecords with
  | none => none
  | some m => initGeometry sqrt m

/-! ## Predicates used in the statements -/

/-- A node index lies in `[0, n_nodes)`. -/
def IndexInRange (n_nodes : Nat) (v : Int) : Prop := 0 ≤ v ∧ v < (n_nodes : Int)

instance (n_nodes : Nat) (v : Int) : Decidable (IndexInRange n_nodes v) := by
  unfold IndexInRange; infer_instance

/-- All three node indices of every face lie in `[0, n_nodes)`. -/
def FacesInRange (n_nodes : Nat) (faces : List FaceType) : Prop :=
  ∀ face ∈ faces, ∀ v ∈ faceVertices face, IndexInRange n_nodes v

instance (n_nodes : Nat) (faces : List FaceType) : Decidable (FacesInRange n_nodes faces) := by
  unfold FacesInRange; infer_instance

/-- The directed edges the faces traverse: `(n0,n1)`, `(n1,n2)`, `(n2,n0)` for each face, in
winding order. -/
def directedEdges (faces : List FaceType) : List (Int × Int) :=
  faces.flatMap (fun face => [(face.v0, face.v1), (face.v1, face.v2), (face.v2, face.v0)])

/-- A closed, consistently oriented face list: every directed edge that is traversed is
traversed exactly once, and its reverse is traversed exactly once. -/
def ClosedOriented (faces : List FaceType) : Prop :=
  ∀ e ∈ directedEdges faces,
    (directedEdges faces).countP (fun d => decide (d = e)) = 1 ∧
    (directedEdges faces).countP (fun d => decide (d = e.swap)) = 1

instance (faces : List FaceType) : Decidable (ClosedOriented faces) := by
  unfold ClosedOriented; infer_instance

/-- The position of node `n`, and the zero vector for an index outside the node list; used
only for indices that are in range. -/
def pointOf (nodes : List (Vec3 K)) (n : Int) : Vec3 K := (nodeAt nodes n).getD Vec3.zero

/-- The quantity of the reference-point invariance as the specification words it: the sum
over all faces of `(p1 - r).((p2 - r) x (p3 - r)) / 6`. -/
def signedVolumeSum (r : Vec3 K) (nodes : List (Vec3 K)) (faces : List FaceType) : K :=
  (faces.map (fun face =>
    volumeTerm r (pointOf nodes face.v0) (pointOf nodes face.v1) (pointOf nodes face.v2))).sum

/-- The invariant of the edge construction loop, relative to the incidences `Inc f e`
("face `f` has been seen with canonical edge `e`") recorded so far: the two vectors have
the same length, no edge is stored twice, the stored edges are exactly the edges seen, and
the set at position `k` holds exactly the faces seen with the edge at position `k`. -/
def EdgeInv (st : List EdgeType × List IndexSet) (Inc : Nat → EdgeType → Prop) : Prop :=
  st.1.length = st.2.length ∧ st.1.Nodup ∧ (∀ e, e ∈ st.1 ↔ ∃ f, Inc f e) ∧
  (∀ (k : Nat) (e : EdgeType) (s : IndexSet),
    st.1[k]? = some e → st.2[k]? = some s → ∀ f, f ∈ s ↔ Inc f e) ∧
  (∀ s ∈ st.2, s.Pairwise (· < ·))

/-- The invariant of the node adjacency loop, relative to the incidences `Inc f v` ("face
`f` has been seen with vertex `v`") recorded so far: the set at position `v` holds
exactly the faces seen with `v`, in ascending order. -/
def NodeInv (adj : List IndexSet) (Inc : Nat → Nat → Prop) : Prop :=
  ∀ (v : Nat) (s : IndexSet), adj[v]? = some s →
    (∀ f, f ∈ s ↔ Inc f v) ∧ s.Pairwise (· < ·)

/-- The conditions under which every lookup the member functions make is inside its
vector: the faces name existing nodes, there is one adjacency set per node, and the
adjacency sets name existing faces. -/
def WellFormed (m : CellMesh K) : Prop :=
  FacesInRange m.nodes_.length m.faces_ ∧
  m.adjacent_faces_for_nodes_.length = m.nodes_.length ∧
  ∀ s ∈ m.adjacent_faces_for_nodes_, ∀ f ∈ s, f < m.faces_.length

instance (m : CellMesh K) : Decidable (WellFormed m) := by
  unfold WellFormed; infer_instance

/-! ## Example inputs -/

/-- A mesh state holding the given nodes and faces and nothing else. -/
def meshOf (nodes : List (Vec3 K)) (faces : List FaceType) : CellMesh K :=
  { nodes_ := nodes, faces_ := faces, edges_ := [], adjacent_faces_for_edges_ := [],
    adjacent_faces_for_nodes_ := [], surface_areas_for_faces_ := [],
    surface_areas_for_nodes_ := [], normals_for_faces_ := [], normals_for_nodes_ := [],
    initial_cell_surface_area_ := 0, initial_cell_volume_ := 0 }

/-- Four points on the unit sphere that span a tetrahedron. -/
def tetraNodes (K : Type) [LinearOrderedField K] : List (Vec3 K) :=
  [⟨1, 0, 0⟩, ⟨-1, 0, 0⟩, ⟨0, 1, 0⟩, ⟨0, 0, 1⟩]

/-- The four faces of the tetrahedron on `tetraNodes`, wound so that the normals point
outwards. -/
def tetraFaces : List FaceType := [⟨0, 1, 2⟩, ⟨0, 3, 1⟩, ⟨1, 3, 2⟩, ⟨0, 2, 3⟩]

/-- The same four faces with the opposite winding (normals pointing inwards). -/
def tetraFacesInward : List FaceType := [⟨0, 2, 1⟩, ⟨0, 1, 3⟩, ⟨1, 2, 3⟩, ⟨0, 3, 2⟩]

/-- The vertex records of the tetrahedron: the coordinates of `tetraNodes`. -/
def tetraVertexRecords (K : Type) [LinearOrderedField K] : List (K × K × K) :=
  [(1, 0, 0), (-1, 0, 0), (0, 1, 0), (0, 0, 1)]

/-- The face records of the tetrahedron with inward winding (`tetraFacesInward`). -/
def tetraFaceRecordsInward : List (Int × Int × Int × Int) :=
  [(3, 0, 2, 1), (3, 0, 1, 3), (3, 1, 2, 3), (3, 0, 3, 2)]

/-- The vertex records of a single triangle with corners on the unit sphere. -/
def triangleVertexRecords (K : Type) [LinearOrderedField K] : List (K × K × K) :=
  [(1, 0, 0), (0, 1, 0), (0, 0, 1)]

/-- The face record of the single triangle. -/
def triangleFaceRecords : List (Int × Int × Int × Int) := [(3, 0, 1, 2)]

/-- A face record that names node `7`, for a file with three vertex records. -/
def outOfRangeFaceRecords : List (Int × Int × Int × Int) := [(3, 0, 1, 7)]

/-- The vertex records of a file with two vertices on the unit sphere. -/
def degenerateVertexRecords (K : Type) [LinearOrderedField K] : List (K × K × K) :=
  [(1, 0, 0), (0, 1, 0)]

/-- A face record that uses node `0` twice. -/
def degenerateFaceRecords : List (Int × Int × Int × Int) := [(3, 0, 0, 1)]

/-- A mesh with two nodes and one face that uses node `0` twice, with the node adjacency the
constructor builds for it. -/
def degenerateMesh (K : Type) [LinearOrderedField K] : CellMesh K :=
  { meshOf [⟨1, 0, 0⟩, ⟨0, 1, 0⟩] [⟨0, 0, 1⟩] with adjacent_faces_for_nodes_ := [[0], [0]] }

/-- The twenty faces of an icosahedron on twelve nodes `0, ..., 11`. -/
def icosahedronFaces : List FaceType :=
  [⟨0, 11, 5⟩, ⟨0, 5, 1⟩, ⟨0, 1, 7⟩, ⟨0, 7, 10⟩, ⟨0, 10, 11⟩,
   ⟨1, 5, 9⟩, ⟨5, 11, 4⟩, ⟨11, 10, 2⟩, ⟨10, 7, 6⟩, ⟨7, 1, 8⟩,
   ⟨3, 9, 4⟩, ⟨3, 4, 2⟩, ⟨3, 2, 6⟩, ⟨3, 6, 8⟩, ⟨3, 8, 9⟩,
   ⟨4, 9, 5⟩, ⟨2, 4, 11⟩, ⟨6, 2, 10⟩, ⟨8, 6, 7⟩, ⟨9, 8, 1⟩]

/-- The tetrahedron with its node adjacency and with the cached face areas `1, 2, 3, 4`. -/
def tetraMeshWithAreas : CellMesh ℚ :=
  { meshOf (tetraNodes ℚ) tetraFaces with
    adjacent_faces_for_nodes_ := [[0, 1, 3], [0, 1, 2], [0, 2, 3], [1, 2, 3]],
    surface_areas_for_faces_ := [1, 2, 3, 4] }

/-- The number under the square root of Heron's formula (the argument of `std::sqrt` at
line 206), for the three side lengths of lines 202–204. -/
def heronRadicand (sqrt : K → K) (p_0 p_1 p_2 : Vec3 K) : K :=
  let a := (p_0.sub p_1).norm sqrt
  let b := (p_1.sub p_2).norm sqrt
  let c := (p_2.sub p_0).norm sqrt
  let s := (a + b + c) / 2
  s * (s - a) * (s - b) * (s - c)

/-- The vertex records of a triangle with corners on the unit circle of the `xy` plane. -/
def flatTriangleVertexRecords (K : Type) [LinearOrderedField K] : List (K × K × K) :=
  [(1, 0, 0), (0, 1, 0), (-1, 0, 0)]

/-- The positions of the flat triangle after every node has moved to twice its distance
from the origin. -/
def flatTriangleNodesDoubled (K : Type) [LinearOrderedField K] : List (Vec3 K) :=
  [⟨2, 0, 0⟩, ⟨0, 2, 0⟩, ⟨-2, 0, 0⟩]

end CellMesh

namespace CellMesh
variable {K : Type} [LinearOrderedField K]

theorem foldOpt_eq_foldl {α β : Type} {f : β → α → Option β} (g : β → α → β) (l : List α)
    (h : ∀ acc, ∀ a ∈ l, f acc a = some (g acc a)) (init : β) :
    foldOpt f init l = some (l.foldl g init) := by
  induction l generalizing init with
  | nil => rfl
  | cons a as ih =>
    simp only [foldOpt, h init a (List.mem_cons_self _ _), List.foldl_cons]
    exact ih (fun acc b hb => h acc b (List.mem_cons_of_mem _ hb)) _

theorem foldl_add_eq_sum {α : Type} (g : α → K) (l : List α) (init : K) :
    l.foldl (fun v a => v + g a) init = init + (l.map g).sum := by
  induction l generalizing init with
  | nil => simp
  | cons a as ih => simp [ih, add_assoc]

theorem nodeAt_eq_pointOf (nodes : List (Vec3 K)) (n : Int) (h : IndexInRange nodes.length n) :
    nodeAt nodes n = some (pointOf nodes n) := by
  obtain ⟨h0, h1⟩ := h
  have hlt : n.toNat < nodes.length := by omega
  simp [pointOf, nodeAt, not_lt.mpr h0, List.getElem?_eq_getElem hlt]

theorem facesInRange_face {n : Nat} {faces : List FaceType} (h : FacesInRange n faces)
    {face : FaceType} (hf : face ∈ faces) :
    IndexInRange n face.v0 ∧ IndexInRange n face.v1 ∧ IndexInRange n face.v2 := by
  have h1 := h face hf
  simpa [faceVertices] using h1

theorem volumeAbout_eq_sum (r : Vec3 K) (nodes : List (Vec3 K)) (faces : List FaceType)
    (h : FacesInRange nodes.length faces) :
    volumeAbout r nodes faces = some (signedVolumeSum r nodes faces) := by
  unfold volumeAbout signedVolumeSum
  rw [foldOpt_eq_foldl (fun volume face => volume +
    volumeTerm r (pointOf nodes face.v0) (pointOf nodes face.v1) (pointOf nodes face.v2))]
  · rw [foldl_add_eq_sum]; simp
  · intro acc face hf
    obtain ⟨h0, h1, h2⟩ := facesInRange_face h hf
    rw [nodeAt_eq_pointOf _ _ h0, nodeAt_eq_pointOf _ _ h1, nodeAt_eq_pointOf _ _ h2]

/-! ### Reference-point invariance of the volume sum -/

theorem volumeTerm_shift (r p1 p2 p3 : Vec3 K) :
    volumeTerm r p1 p2 p3 = volumeTerm Vec3.zero p1 p2 p3
      - (r.dot (p1.cross p2) + r.dot (p2.cross p3) + r.dot (p3.cross p1)) / 6 := by
  simp only [volumeTerm, Vec3.dot, Vec3.cross, Vec3.sub, Vec3.zero]
  ring

theorem sum_map_neg_eq {α : Type} (h : α → K) (l : List α) :
    (l.map (fun a => - h a)).sum = - (l.map h).sum := by
  induction l with
  | nil => simp
  | cons a as ih => simp [ih]; ring

theorem sum_antisymm_eq_zero (D : List (Int × Int)) (h : Int × Int → K)
    (hanti : ∀ e, h e.swap = - h e) (hnd : D.Nodup) (hsw : ∀ e ∈ D, e.swap ∈ D) :
    (D.map h).sum = 0 := by
  have hperm : (D.map Prod.swap).Perm D := by
    refine (List.perm_ext_iff_of_nodup (hnd.map Prod.swap_injective) hnd).2 (fun e => ?_)
    constructor
    · intro he
      obtain ⟨e1, he1, rfl⟩ := List.mem_map.1 he
      exact hsw e1 he1
    · intro he
      exact List.mem_map.2 ⟨e.swap, hsw e he, Prod.swap_swap e⟩
  have h1 : ((D.map Prod.swap).map h).sum = (D.map h).sum := (hperm.map h).sum_eq
  have h2 : ((D.map Prod.swap).map h) = D.map (fun e => - h e) := by
    rw [List.map_map]
    exact List.map_congr_left (fun e _ => hanti e)
  rw [h2, sum_map_neg_eq] at h1
  linarith

theorem mem_of_countP_pos {α : Type} [DecidableEq α] (D : List α) (e : α)
    (h : 0 < D.countP (fun d => decide (d = e))) : e ∈ D := by
  obtain ⟨a, ha, hp⟩ := List.countP_pos_iff.1 h
  have : a = e := by simpa using hp
  exact this ▸ ha

theorem nodup_of_countP {α : Type} [DecidableEq α] (D : List α)
    (h : ∀ e ∈ D, D.countP (fun d => decide (d = e)) = 1) : D.Nodup := by
  rw [List.nodup_iff_count_le_one]
  intro e
  have hc : D.count e = D.countP (fun d => decide (d = e)) := by
    unfold List.count
    congr 1
  by_cases he : e ∈ D
  · rw [hc]; exact le_of_eq (h e he)
  · rw [List.count_eq_zero_of_not_mem he]; exact Nat.zero_le _

theorem closedOriented_nodup {faces : List FaceType} (h : ClosedOriented faces) :
    (directedEdges faces).Nodup :=
  nodup_of_countP _ (fun e he => (h e he).1)

theorem closedOriented_swap {faces : List FaceType} (h : ClosedOriented faces) :
    ∀ e ∈ directedEdges faces, e.swap ∈ directedEdges faces := by
  intro e he
  exact mem_of_countP_pos _ _ (by rw [(h e he).2]; exact Nat.one_pos)

theorem sum_faces_eq_sum_directedEdges (h : Int × Int → K) (faces : List FaceType) :
    (faces.map (fun face => h (face.v0, face.v1) + h (face.v1, face.v2)
      + h (face.v2, face.v0))).sum = ((directedEdges faces).map h).sum := by
  induction faces with
  | nil => simp [directedEdges]
  | cons face rest ih =>
    simp only [directedEdges, List.flatMap_cons, List.map_cons, List.sum_cons, List.map_append,
      List.sum_append, List.map_nil, List.sum_nil] at ih ⊢
    rw [ih]; ring

theorem sum_map_sub_div {α : Type} (a b : α → K) (l : List α) :
    (l.map (fun x => a x - b x / 6)).sum = (l.map a).sum - (l.map b).sum / 6 := by
  induction l with
  | nil => simp
  | cons x xs ih => simp only [List.map_cons, List.sum_cons, ih]; ring

theorem signedVolumeSum_shift (r : Vec3 K) (nodes : List (Vec3 K)) (faces : List FaceType) :
    signedVolumeSum r nodes faces = signedVolumeSum Vec3.zero nodes faces
      - ((directedEdges faces).map (fun e =>
          r.dot ((pointOf nodes e.1).cross (pointOf nodes e.2)))).sum / 6 := by
  rw [← sum_faces_eq_sum_directedEdges]
  unfold signedVolumeSum
  rw [← sum_map_sub_div]
  exact congrArg List.sum (List.map_congr_left (fun face _ => volumeTerm_shift r _ _ _))

theorem signedVolumeSum_invariant (r : Vec3 K) (nodes : List (Vec3 K)) (faces : List FaceType)
    (hc : ClosedOriented faces) :
    signedVolumeSum r nodes faces = signedVolumeSum Vec3.zero nodes faces := by
  rw [signedVolumeSum_shift, sum_antisymm_eq_zero _ _ _ (closedOriented_nodup hc)
    (closedOriented_swap hc)]
  · simp
  · intro e
    simp only [Prod.fst_swap, Prod.snd_swap, Vec3.dot, Vec3.cross]
    ring

end CellMesh

namespace CellMesh
variable {K : Type} [LinearOrderedField K]

/-! ### Loops that may be undefined -/

theorem mapOpt_forall₂ {α β : Type} {f : α → Option β} {l : List α} {bs : List β}
    (h : mapOpt f l = some bs) : List.Forall₂ (fun a b => f a = some b) l bs := by
  induction l generalizing bs with
  | nil =>
    simp only [mapOpt, Option.some.injEq] at h
    subst h; exact List.Forall₂.nil
  | cons a as ih =>
    simp only [mapOpt] at h
    cases hfa : f a with
    | none => simp [hfa] at h
    | some b =>
      cases hrest : mapOpt f as with
      | none => simp [hfa, hrest] at h
      | some bs1 =>
        simp only [hfa, hrest, Option.some.injEq] at h
        subst h
        exact List.Forall₂.cons hfa (ih hrest)

theorem mapOpt_isSome {α β : Type} {f : α → Option β} {l : List α}
    (h : ∀ a ∈ l, ∃ b, f a = some b) : ∃ bs, mapOpt f l = some bs := by
  induction l with
  | nil => exact ⟨[], rfl⟩
  | cons a as ih =>
    obtain ⟨b, hb⟩ := h a (List.mem_cons_self _ _)
    obtain ⟨bs, hbs⟩ := ih (fun x hx => h x (List.mem_cons_of_mem _ hx))
    exact ⟨b :: bs, by simp only [mapOpt, hb, hbs]⟩

theorem forall₂_mem_right {α β : Type} {R : α → β → Prop} {l : List α} {bs : List β}
    (h : List.Forall₂ R l bs) {b : β} (hb : b ∈ bs) : ∃ a ∈ l, R a b := by
  induction h with
  | nil => simp at hb
  | cons hab _ ih =>
    rcases List.mem_cons.1 hb with rfl | hb1
    · exact ⟨_, List.mem_cons_self _ _, hab⟩
    · obtain ⟨a, ha, hr⟩ := ih hb1
      exact ⟨a, List.mem_cons_of_mem _ ha, hr⟩

theorem mapOpt_mem {α β : Type} {f : α → Option β} {l : List α} {bs : List β}
    (h : mapOpt f l = some bs) {b : β} (hb : b ∈ bs) : ∃ a ∈ l, f a = some b :=
  forall₂_mem_right (mapOpt_forall₂ h) hb

theorem mapOpt_length {α β : Type} {f : α → Option β} {l : List α} {bs : List β}
    (h : mapOpt f l = some bs) : bs.length = l.length :=
  (mapOpt_forall₂ h).length_eq.symm

theorem mapOpt_getElem? {α β : Type} {f : α → Option β} {l : List α} {bs : List β}
    (h : mapOpt f l = some bs) {i : Nat} {a : α} (ha : l[i]? = some a) :
    ∃ b, bs[i]? = some b ∧ f a = some b := by
  have h2 := mapOpt_forall₂ h
  induction h2 generalizing i with
  | nil => simp at ha
  | cons hab hrest ih =>
    rename_i a1 b1 l1 l2
    cases i with
    | zero =>
      simp only [List.getElem?_cons_zero, Option.some.injEq] at ha
      subst ha
      exact ⟨b1, by simp, hab⟩
    | succ j =>
      simp only [List.getElem?_cons_succ] at ha ⊢
      have hm : mapOpt f l1 = some l2 := by
        simp only [mapOpt, hab] at h
        cases hr : mapOpt f l1 with
        | none => simp [hr] at h
        | some bs1 => simp only [hr, Option.some.injEq, List.cons.injEq, true_and] at h; rw [h]
      exact ih hm ha

/-! ### Orientation -/

theorem orient_dot_eq (c p1 p2 p3 : Vec3 K) :
    ((p2.sub p1).cross (p3.sub p2)).dot (p2.sub c)
        = (p1.sub c).dot ((p2.sub p1).cross (p3.sub p2)) ∧
    ((p2.sub p1).cross (p3.sub p2)).dot (p3.sub c)
        = (p1.sub c).dot ((p2.sub p1).cross (p3.sub p2)) ∧
    ((p2.sub p1).cross (p3.sub p2)).dot (p1.sub c)
        = (p1.sub c).dot ((p2.sub p1).cross (p3.sub p2)) := by
  simp only [Vec3.dot, Vec3.cross, Vec3.sub]
  refine ⟨by ring, by ring, by ring⟩

theorem orient_swap_dot (c p1 p2 p3 : Vec3 K) :
    (p1.sub c).dot ((p3.sub p1).cross (p2.sub p3))
      = - (p1.sub c).dot ((p2.sub p1).cross (p3.sub p2)) := by
  simp only [Vec3.dot, Vec3.cross, Vec3.sub]
  ring

/-- What `orientFace` returns on a face whose indices are in range. -/
theorem orientFace_spec (c : Vec3 K) (nodes : List (Vec3 K)) (face : FaceType)
    (h0 : IndexInRange nodes.length face.v0) (h1 : IndexInRange nodes.length face.v1)
    (h2 : IndexInRange nodes.length face.v2) :
    ∃ face1, orientFace c nodes face = some face1 ∧
      (face1 = face ∨ face1 = ⟨face.v0, face.v2, face.v1⟩) ∧
      ∃ p1 p2 p3, nodeAt nodes face1.v0 = some p1 ∧ nodeAt nodes face1.v1 = some p2 ∧
        nodeAt nodes face1.v2 = some p3 ∧
        0 ≤ (p1.sub c).dot ((p2.sub p1).cross (p3.sub p2)) := by
  unfold orientFace
  rw [nodeAt_eq_pointOf _ _ h0, nodeAt_eq_pointOf _ _ h1, nodeAt_eq_pointOf _ _ h2]
  simp only
  split_ifs with hneg
  · refine ⟨_, rfl, Or.inr rfl, pointOf nodes face.v0, pointOf nodes face.v2,
      pointOf nodes face.v1, nodeAt_eq_pointOf _ _ h0, nodeAt_eq_pointOf _ _ h2,
      nodeAt_eq_pointOf _ _ h1, ?_⟩
    rw [orient_swap_dot]
    linarith
  · exact ⟨_, rfl, Or.inl rfl, pointOf nodes face.v0, pointOf nodes face.v1,
      pointOf nodes face.v2, nodeAt_eq_pointOf _ _ h0, nodeAt_eq_pointOf _ _ h1,
      nodeAt_eq_pointOf _ _ h2, not_lt.1 hneg⟩

theorem makeFacesOriented_isSome (m : CellMesh K)
    (hr : FacesInRange m.nodes_.length m.faces_) :
    ∃ faces, mapOpt (orientFace (centerOfMass m.nodes_) m.nodes_) m.faces_ = some faces ∧
      MakeFacesOriented m = some { m with faces_ := faces } := by
  obtain ⟨faces, hf⟩ := mapOpt_isSome (f := orientFace (centerOfMass m.nodes_) m.nodes_)
    (l := m.faces_) (fun face hface => by
      obtain ⟨h0, h1, h2⟩ := facesInRange_face hr hface
      obtain ⟨face1, hface1, _⟩ := orientFace_spec (centerOfMass m.nodes_) m.nodes_ face h0 h1 h2
      exact ⟨face1, hface1⟩)
  exact ⟨faces, hf, by simp only [MakeFacesOriented, hf]⟩

end CellMesh

namespace CellMesh
variable {K : Type} [LinearOrderedField K]

/-! ### Sets as ascending lists, vectors -/

theorem mem_setInsert {α : Type} (lt : α → α → Bool)
    (htri : ∀ a b, lt a b = false → lt b a = false → a = b) (x a : α) (l : List α) :
    a ∈ setInsert lt x l ↔ a = x ∨ a ∈ l := by
  induction l with
  | nil => simp [setInsert]
  | cons y ys ih =>
    unfold setInsert
    by_cases h1 : lt x y = true
    · simp [h1]
    · by_cases h2 : lt y x = true
      · have h1f : lt x y = false := by simpa using h1
        rw [h1f, h2]
        simp only [Bool.false_eq_true, if_false, if_true, List.mem_cons, ih]
        tauto
      · have hxy : x = y := htri x y (by simpa using h1) (by simpa using h2)
        subst hxy
        have h1f : lt x x = false := by simpa using h1
        rw [h1f]
        simp

theorem indexLt_tri (a b : Nat) (h1 : indexLt a b = false) (h2 : indexLt b a = false) :
    a = b := by
  simp only [indexLt, decide_eq_false_iff_not, not_lt] at h1 h2
  omega

theorem edgeLt_tri (a b : EdgeType) (h1 : edgeLt a b = false) (h2 : edgeLt b a = false) :
    a = b := by
  obtain ⟨a1, a2⟩ := a
  obtain ⟨b1, b2⟩ := b
  simp only [edgeLt, Bool.or_eq_false_iff, decide_eq_false_iff_not, not_lt, Bool.and_eq_false_iff,
    Bool.not_eq_false', decide_eq_true_eq] at h1 h2
  have e1 : a1 = b1 := by omega
  have e2 : a2 = b2 := by omega
  rw [e1, e2]

theorem mem_setInsert_index (f g : Nat) (s : IndexSet) :
    g ∈ setInsert indexLt f s ↔ g = f ∨ g ∈ s :=
  mem_setInsert indexLt indexLt_tri f g s

theorem pairwise_setInsert_index (f : Nat) (s : IndexSet) (hs : s.Pairwise (· < ·)) :
    (setInsert indexLt f s).Pairwise (· < ·) := by
  induction s with
  | nil => simp [setInsert]
  | cons y ys ih =>
    have hys := (List.pairwise_cons.1 hs)
    unfold setInsert
    by_cases h1 : f < y
    · simp only [indexLt, h1, decide_True, if_true]
      refine List.pairwise_cons.2 ⟨?_, hs⟩
      intro a ha
      rcases List.mem_cons.1 ha with rfl | ha
      · exact h1
      · exact lt_trans h1 (hys.1 a ha)
    · by_cases h2 : y < f
      · simp only [indexLt, h1, h2, decide_True, decide_False, if_true, if_false]
        refine List.pairwise_cons.2 ⟨?_, ih hys.2⟩
        intro a ha
        rcases (mem_setInsert_index f a ys).1 ha with rfl | ha
        · exact h2
        · exact hys.1 a ha
      · simpa only [indexLt, h1, h2, decide_False, if_false] using hs

theorem mem_edgesPerFace (face : FaceType) (e : EdgeType) :
    e ∈ edgesPerFace face ↔ e ∈ canonicalEdges face := by
  simp only [edgesPerFace, canonicalEdges, List.foldl_cons, List.foldl_nil,
    mem_setInsert edgeLt edgeLt_tri, List.mem_cons, List.mem_singleton, List.not_mem_nil,
    or_false]
  tauto

theorem length_modifyAt {α : Type} (f : α → α) (i : Nat) (l : List α) :
    (modifyAt f i l).length = l.length := by
  induction l generalizing i with
  | nil => simp [modifyAt]
  | cons a as ih => cases i <;> simp [modifyAt, ih]

theorem getElem?_modifyAt {α : Type} (f : α → α) (i j : Nat) (l : List α) :
    (modifyAt f i l)[j]? = if j = i then l[j]?.map f else l[j]? := by
  induction l generalizing i j with
  | nil => simp [modifyAt]
  | cons a as ih =>
    cases i with
    | zero => cases j <;> simp [modifyAt]
    | succ i =>
      cases j with
      | zero => simp [modifyAt]
      | succ j => simp [modifyAt, ih]

theorem mem_modifyAt {α : Type} (f : α → α) (i : Nat) (l : List α) (b : α)
    (hb : b ∈ modifyAt f i l) : b ∈ l ∨ ∃ a ∈ l, b = f a := by
  induction l generalizing i with
  | nil => simp [modifyAt] at hb
  | cons a as ih =>
    cases i with
    | zero =>
      simp only [modifyAt, List.mem_cons] at hb
      rcases hb with rfl | hb
      · exact Or.inr ⟨a, List.mem_cons_self _ _, rfl⟩
      · exact Or.inl (List.mem_cons_of_mem _ hb)
    | succ i =>
      simp only [modifyAt, List.mem_cons] at hb
      rcases hb with rfl | hb
      · exact Or.inl (List.mem_cons_self _ _)
      · rcases ih i hb with h | ⟨c, hc, rfl⟩
        · exact Or.inl (List.mem_cons_of_mem _ h)
        · exact Or.inr ⟨c, List.mem_cons_of_mem _ hc, rfl⟩

theorem findEdge_eq_none (edge : EdgeType) (es : List EdgeType) :
    findEdge edge es = none ↔ edge ∉ es := by
  induction es with
  | nil => simp [findEdge]
  | cons e rest ih =>
    unfold findEdge
    by_cases h : e = edge
    · simp [h]
    · simp only [h, if_false, Option.map_eq_none', ih, List.mem_cons, not_or]
      exact ⟨fun hr => ⟨fun h2 => h h2.symm, hr⟩, fun hr => hr.2⟩

theorem findEdge_eq_some (edge : EdgeType) (es : List EdgeType) (i : Nat)
    (h : findEdge edge es = some i) : es[i]? = some edge := by
  induction es generalizing i with
  | nil => simp [findEdge] at h
  | cons e rest ih =>
    unfold findEdge at h
    by_cases he : e = edge
    · simp only [he, if_true, Option.some.injEq] at h
      subst h; simp [he]
    · simp only [he, if_false, Option.map_eq_some'] at h
      obtain ⟨j, hj, rfl⟩ := h
      simpa using ih j hj

end CellMesh

namespace CellMesh

/-! ### The edge construction loop -/

theorem edgeInv_congr {st : List EdgeType × List IndexSet} {Inc Inc2 : Nat → EdgeType → Prop}
    (h : EdgeInv st Inc) (hiff : ∀ f e, Inc f e ↔ Inc2 f e) : EdgeInv st Inc2 := by
  have : Inc = Inc2 := by funext f e; exact propext (hiff f e)
  exact this ▸ h

theorem edgeInv_insertEdge (f : Nat) (edge : EdgeType) (st : List EdgeType × List IndexSet)
    (Inc : Nat → EdgeType → Prop) (h : EdgeInv st Inc) :
    EdgeInv (insertEdge f st edge) (fun g e => Inc g e ∨ (g = f ∧ e = edge)) := by
  obtain ⟨E, A⟩ := st
  obtain ⟨hlen, hnd, hmem, hadj, hsort⟩ := h
  simp only at hlen hnd hmem hadj hsort
  unfold insertEdge
  cases hfind : findEdge edge E with
  | some idx =>
    have hidx : E[idx]? = some edge := findEdge_eq_some edge E idx hfind
    have hin : edge ∈ E := List.getElem?_mem hidx
    refine ⟨?_, hnd, ?_, ?_, ?_⟩
    · simp only [length_modifyAt]; exact hlen
    · intro e
      simp only
      constructor
      · intro he
        obtain ⟨g, hg⟩ := (hmem e).1 he
        exact ⟨g, Or.inl hg⟩
      · rintro ⟨g, hg | ⟨_, rfl⟩⟩
        · exact (hmem e).2 ⟨g, hg⟩
        · exact hin
    · intro k e s hk hs g
      simp only at hk hs
      rw [getElem?_modifyAt] at hs
      by_cases hki : k = idx
      · subst hki
        have he : e = edge := by rw [hidx] at hk; exact (Option.some.inj hk).symm
        subst he
        simp only [if_true, Option.map_eq_some'] at hs
        obtain ⟨s0, hs0, rfl⟩ := hs
        rw [mem_setInsert_index, hadj k e s0 hk hs0 g]
        constructor
        · rintro (rfl | h1)
          · exact Or.inr ⟨rfl, rfl⟩
          · exact Or.inl h1
        · rintro (h1 | ⟨rfl, _⟩)
          · exact Or.inr h1
          · exact Or.inl rfl
      · simp only [hki, if_false] at hs
        rw [hadj k e s hk hs g]
        constructor
        · exact Or.inl
        · rintro (h1 | ⟨_, rfl⟩)
          · exact h1
          · exfalso
            have hklt : k < E.length := (List.getElem?_eq_some_iff.1 hk).1
            have hilt : idx < E.length := (List.getElem?_eq_some_iff.1 hidx).1
            have h1 : E[k] = e := (List.getElem?_eq_some_iff.1 hk).2
            have h2 : E[idx] = e := (List.getElem?_eq_some_iff.1 hidx).2
            exact hki ((List.Nodup.getElem_inj_iff hnd).1 (h1.trans h2.symm))
    · intro s hs
      simp only at hs
      rcases mem_modifyAt _ _ _ _ hs with h1 | ⟨s0, hs0, rfl⟩
      · exact hsort s h1
      · exact pairwise_setInsert_index f s0 (hsort s0 hs0)
  | none =>
    have hnot : edge ∉ E := (findEdge_eq_none edge E).1 hfind
    refine ⟨?_, ?_, ?_, ?_, ?_⟩
    · simp [hlen]
    · simp only
      exact List.Nodup.append hnd (List.nodup_singleton _) (by simpa using hnot)
    · intro e
      simp only [List.mem_append, List.mem_singleton, hmem e]
      constructor
      · rintro (⟨g, hg⟩ | rfl)
        · exact ⟨g, Or.inl hg⟩
        · exact ⟨f, Or.inr ⟨rfl, rfl⟩⟩
      · rintro ⟨g, hg | ⟨_, rfl⟩⟩
        · exact Or.inl ⟨g, hg⟩
        · exact Or.inr rfl
    · intro k e s hk hs g
      simp only at hk hs
      by_cases hkl : k < E.length
      · rw [List.getElem?_append_left hkl] at hk
        rw [List.getElem?_append_left (hlen ▸ hkl)] at hs
        rw [hadj k e s hk hs g]
        constructor
        · exact Or.inl
        · rintro (h1 | ⟨_, rfl⟩)
          · exact h1
          · exact absurd (List.getElem?_mem hk) hnot
      · have hge : E.length ≤ k := not_lt.1 hkl
        rw [List.getElem?_append_right hge] at hk
        rw [List.getElem?_append_right (hlen ▸ hge)] at hs
        have hk0 : k - E.length = 0 := by
          by_contra hne
          obtain ⟨j, hj⟩ := Nat.exists_eq_succ_of_ne_zero hne
          rw [hj] at hk; simp at hk
        rw [hk0] at hk
        rw [← hlen, hk0] at hs
        simp only [List.getElem?_cons_zero, Option.some.injEq] at hk hs
        subst hk; subst hs
        simp only [List.mem_singleton]
        constructor
        · rintro rfl; exact Or.inr (by simp)
        · rintro (h1 | ⟨h2, _⟩)
          · exact absurd ((hmem _).2 ⟨g, h1⟩) hnot
          · exact h2
    · intro s hs
      simp only [List.mem_append, List.mem_singleton] at hs
      rcases hs with h1 | rfl
      · exact hsort s h1
      · exact List.pairwise_singleton _ _

theorem edgeInv_foldl (f : Nat) (L : List EdgeType) (st : List EdgeType × List IndexSet)
    (Inc : Nat → EdgeType → Prop) (h : EdgeInv st Inc) :
    EdgeInv (L.foldl (insertEdge f) st) (fun g e => Inc g e ∨ (g = f ∧ e ∈ L)) := by
  induction L generalizing st Inc with
  | nil => exact edgeInv_congr h (fun g e => by simp)
  | cons edge rest ih =>
    rw [List.foldl_cons]
    refine edgeInv_congr (ih _ _ (edgeInv_insertEdge f edge st Inc h)) (fun g e => ?_)
    simp only [List.mem_cons]
    tauto

theorem edgeInv_processFace (f : Nat) (face : FaceType)
    (st : List EdgeType × List IndexSet) (Inc : Nat → EdgeType → Prop) (h : EdgeInv st Inc) :
    EdgeInv (processFace f face st)
      (fun g e => Inc g e ∨ (g = f ∧ e ∈ canonicalEdges face)) :=
  edgeInv_congr (edgeInv_foldl f (edgesPerFace face) st Inc h)
    (fun g e => by rw [mem_edgesPerFace])

theorem edgeInv_edgeLoop (faces : List FaceType) (f0 : Nat)
    (st : List EdgeType × List IndexSet) (Inc : Nat → EdgeType → Prop) (h : EdgeInv st Inc) :
    EdgeInv (edgeLoop faces f0 st) (fun g e => Inc g e ∨
      ∃ j face, faces[j]? = some face ∧ g = f0 + j ∧ e ∈ canonicalEdges face) := by
  induction faces generalizing f0 st Inc with
  | nil => exact edgeInv_congr h (fun g e => by simp)
  | cons face rest ih =>
    unfold edgeLoop
    refine edgeInv_congr (ih (f0 + 1) _ _ (edgeInv_processFace f0 face st Inc h))
      (fun g e => ?_)
    constructor
    · rintro ((h1 | ⟨rfl, h2⟩) | ⟨j, face1, hj, rfl, he⟩)
      · exact Or.inl h1
      · exact Or.inr ⟨0, face, by simp, by simp, h2⟩
      · exact Or.inr ⟨j + 1, face1, by simpa using hj, by omega, he⟩
    · rintro (h1 | ⟨j, face1, hj, rfl, he⟩)
      · exact Or.inl (Or.inl h1)
      · cases j with
        | zero =>
          simp only [List.getElem?_cons_zero, Option.some.injEq] at hj
          subst hj
          exact Or.inl (Or.inr ⟨by simp, he⟩)
        | succ j =>
          simp only [List.getElem?_cons_succ] at hj
          exact Or.inr ⟨j, face1, hj, by omega, he⟩

/-- The state the edge construction ends in, for every face list. -/
theorem edgeInv_buildEdges (faces : List FaceType) :
    EdgeInv (buildEdges faces)
      (fun g e => ∃ face, faces[g]? = some face ∧ e ∈ canonicalEdges face) := by
  have h0 : EdgeInv (([], []) : List EdgeType × List IndexSet) (fun _ _ => False) := by
    refine ⟨rfl, List.nodup_nil, ?_, ?_, ?_⟩
    · intro e; simp
    · intro k e s hk; simp at hk
    · intro s hs; simp at hs
  refine edgeInv_congr (edgeInv_edgeLoop faces 0 _ _ h0) (fun g e => ?_)
  constructor
  · rintro (h1 | ⟨j, face, hj, rfl, he⟩)
    · exact absurd h1 id
    · exact ⟨face, by simpa using hj, he⟩
  · rintro ⟨face, hg, he⟩
    exact Or.inr ⟨g, face, hg, by simp, he⟩

end CellMesh

namespace CellMesh

/-! ### Counting the faces incident to an edge -/

theorem length_filter_range_eq_countP {α : Type} (l : List α) (p : α → Bool) :
    ((List.range l.length).filter (fun f =>
      match l[f]? with
      | some a => p a
      | none => false)).length = l.countP p := by
  induction l using List.reverseRecOn with
  | nil => simp
  | append_singleton l a ih =>
    rw [List.length_append, List.length_singleton, List.range_succ, List.filter_append,
      List.length_append, List.countP_append]
    congr 1
    · rw [← ih]
      congr 1
      apply List.filter_congr
      intro f hf
      have hlt : f < l.length := List.mem_range.1 hf
      rw [List.getElem?_append_left hlt]
    · simp only [List.filter_cons, List.filter_nil, List.getElem?_append_right (le_refl _),
        Nat.sub_self, List.getElem?_cons_zero, List.countP_cons, List.countP_nil]
      cases p a <;> simp

theorem indexSet_length_eq_countP {α : Type} (l : List α) (p : α → Bool) (s : IndexSet)
    (hs : s.Pairwise (· < ·)) (hmem : ∀ f, f ∈ s ↔ ∃ a, l[f]? = some a ∧ p a = true) :
    s.length = l.countP p := by
  rw [← length_filter_range_eq_countP]
  apply List.Perm.length_eq
  refine (List.perm_ext_iff_of_nodup (hs.imp (fun h => ne_of_lt h))
    ((List.nodup_range _).filter _)).2 (fun f => ?_)
  rw [hmem f, List.mem_filter, List.mem_range]
  constructor
  · rintro ⟨a, ha, hp⟩
    exact ⟨(List.getElem?_eq_some_iff.1 ha).1, by simp only [ha, hp]⟩
  · rintro ⟨hlt, hp⟩
    refine ⟨l[f], List.getElem?_eq_getElem hlt, ?_⟩
    simpa only [List.getElem?_eq_getElem hlt] using hp

/-- The size of the set stored for an edge is the number of faces that have the edge. -/
theorem buildEdges_adjacent_length (faces : List FaceType) (k : Nat) (e : EdgeType)
    (s : IndexSet) (hk : (buildEdges faces).1[k]? = some e)
    (hs : (buildEdges faces).2[k]? = some s) :
    s.length = faces.countP (fun face => decide (e ∈ canonicalEdges face)) := by
  obtain ⟨_, _, _, hadj, hsort⟩ := edgeInv_buildEdges faces
  refine indexSet_length_eq_countP faces _ s (hsort s (List.getElem?_mem hs)) (fun f => ?_)
  rw [hadj k e s hk hs f]
  simp only [decide_eq_true_eq]

theorem buildEdges_getElem?_adjacent (faces : List FaceType) (k : Nat) (e : EdgeType)
    (hk : (buildEdges faces).1[k]? = some e) :
    ∃ s, (buildEdges faces).2[k]? = some s := by
  obtain ⟨hlen, _⟩ := edgeInv_buildEdges faces
  have hlt : k < (buildEdges faces).2.length := hlen ▸ (List.getElem?_eq_some_iff.1 hk).1
  exact ⟨_, List.getElem?_eq_getElem hlt⟩

end CellMesh

namespace CellMesh

/-! ### Double counting of edge–face incidences -/

theorem sum_map_ite_eq_countP {β : Type} (p : β → Bool) (l : List β) :
    (l.map (fun b => if p b = true then 1 else 0)).sum = l.countP p := by
  induction l with
  | nil => simp
  | cons b bs ih =>
    rw [List.map_cons, List.sum_cons, ih, List.countP_cons]
    cases p b <;> simp [Nat.add_comm]

theorem sum_map_add_nat {β : Type} (g h : β → Nat) (l : List β) :
    (l.map (fun b => g b + h b)).sum = (l.map g).sum + (l.map h).sum := by
  induction l with
  | nil => simp
  | cons b bs ih => simp only [List.map_cons, List.sum_cons, ih]; omega

theorem sum_countP_comm {α β : Type} (r : α → β → Bool) (l1 : List α) (l2 : List β) :
    (l1.map (fun a => l2.countP (fun b => r a b))).sum
      = (l2.map (fun b => l1.countP (fun a => r a b))).sum := by
  induction l1 with
  | nil => simp
  | cons a as ih =>
    rw [List.map_cons, List.sum_cons, ih]
    have h : (fun b => (a :: as).countP (fun x => r x b))
        = (fun b => (if r a b = true then 1 else 0) + as.countP (fun x => r x b)) := by
      funext b
      rw [List.countP_cons]
      cases r a b <;> simp [Nat.add_comm]
    rw [h, sum_map_add_nat, sum_map_ite_eq_countP]

theorem sum_map_const_nat {β : Type} (g : β → Nat) (c : Nat) (l : List β)
    (h : ∀ b ∈ l, g b = c) : (l.map g).sum = c * l.length := by
  induction l with
  | nil => simp
  | cons b bs ih =>
    rw [List.map_cons, List.sum_cons, h b (List.mem_cons_self _ _),
      ih (fun x hx => h x (List.mem_cons_of_mem _ hx)), List.length_cons]
    ring

theorem countP_mem_eq_length (E C : List EdgeType) (hE : E.Nodup)
    (hC : C.Nodup) (hsub : ∀ c ∈ C, c ∈ E) :
    E.countP (fun e => decide (e ∈ C)) = C.length := by
  rw [List.countP_eq_length_filter]
  apply List.Perm.length_eq
  refine (List.perm_ext_iff_of_nodup (hE.filter _) hC).2 (fun e => ?_)
  rw [List.mem_filter]
  constructor
  · rintro ⟨_, h⟩; simpa using h
  · intro h; exact ⟨hsub e h, by simpa using h⟩

theorem canonicalEdges_nodup (face : FaceType)
    (h : face.v0 ≠ face.v1 ∧ face.v1 ≠ face.v2 ∧ face.v0 ≠ face.v2) :
    (canonicalEdges face).Nodup := by
  obtain ⟨h01, h12, h02⟩ := h
  simp only [canonicalEdges, List.nodup_cons, List.mem_cons, List.mem_singleton,
    List.not_mem_nil, or_false, not_false_eq_true, List.nodup_nil, and_true, Prod.mk.injEq,
    not_or, not_and]
  refine ⟨⟨?_, ?_⟩, ?_⟩ <;> intro hmin hmax <;>
    simp only [min_def, max_def] at hmin hmax <;> split_ifs at hmin hmax <;> omega

end CellMesh

namespace CellMesh

/-! ### The node adjacency loop -/

theorem nodeInv_congr {adj : List IndexSet} {Inc Inc2 : Nat → Nat → Prop}
    (h : NodeInv adj Inc) (hiff : ∀ f v, Inc f v ↔ Inc2 f v) : NodeInv adj Inc2 := by
  have : Inc = Inc2 := by funext f v; exact propext (hiff f v)
  exact this ▸ h

theorem nodeInv_insertAdjacentFace (f : Nat) (adj : List IndexSet) (vertex : Int)
    (Inc : Nat → Nat → Prop) (h : NodeInv adj Inc) (hv : IndexInRange adj.length vertex) :
    ∃ adj1, insertAdjacentFace f adj vertex = some adj1 ∧ adj1.length = adj.length ∧
      NodeInv adj1 (fun g v => Inc g v ∨ (g = f ∧ (v : Int) = vertex)) := by
  obtain ⟨h0, h1⟩ := hv
  have hlt : vertex.toNat < adj.length := by omega
  refine ⟨modifyAt (setInsert indexLt f) vertex.toNat adj, ?_, length_modifyAt _ _ _, ?_⟩
  · simp [insertAdjacentFace, h0, hlt]
  · intro v s hs
    rw [getElem?_modifyAt] at hs
    by_cases hvv : v = vertex.toNat
    · simp only [hvv, if_true, Option.map_eq_some'] at hs
      obtain ⟨s0, hs0, rfl⟩ := hs
      have hv0 := h vertex.toNat s0 hs0
      refine ⟨fun g => ?_, pairwise_setInsert_index f s0 hv0.2⟩
      rw [mem_setInsert_index, hv0.1 g, hvv]
      have hcast : ((vertex.toNat : Nat) : Int) = vertex := Int.toNat_of_nonneg h0
      constructor
      · rintro (rfl | h2)
        · exact Or.inr ⟨rfl, hcast⟩
        · exact Or.inl h2
      · rintro (h2 | ⟨rfl, _⟩)
        · exact Or.inr h2
        · exact Or.inl rfl
    · simp only [hvv, if_false] at hs
      have hv0 := h v s hs
      refine ⟨fun g => ?_, hv0.2⟩
      rw [hv0.1 g]
      constructor
      · exact Or.inl
      · rintro (h2 | ⟨_, h3⟩)
        · exact h2
        · exact absurd (by omega) hvv

theorem nodeInv_foldOpt (f : Nat) (L : List Int) (adj : List IndexSet)
    (Inc : Nat → Nat → Prop) (h : NodeInv adj Inc)
    (hL : ∀ vertex ∈ L, IndexInRange adj.length vertex) :
    ∃ adj1, foldOpt (insertAdjacentFace f) adj L = some adj1 ∧ adj1.length = adj.length ∧
      NodeInv adj1 (fun g v => Inc g v ∨ (g = f ∧ (v : Int) ∈ L)) := by
  induction L generalizing adj Inc with
  | nil => exact ⟨adj, rfl, rfl, nodeInv_congr h (fun g v => by simp)⟩
  | cons vertex rest ih =>
    obtain ⟨adj1, h1, hlen1, hinv1⟩ := nodeInv_insertAdjacentFace f adj vertex Inc h
      (hL vertex (List.mem_cons_self _ _))
    obtain ⟨adj2, h2, hlen2, hinv2⟩ := ih adj1 _ hinv1
      (fun w hw => hlen1 ▸ hL w (List.mem_cons_of_mem _ hw))
    refine ⟨adj2, by simp only [foldOpt, h1, h2], hlen2.trans hlen1,
      nodeInv_congr hinv2 (fun g v => ?_)⟩
    simp only [List.mem_cons]
    tauto

theorem nodeInv_nodeAdjacencyLoop (faces : List FaceType) (f0 : Nat) (adj : List IndexSet)
    (Inc : Nat → Nat → Prop) (h : NodeInv adj Inc) (hr : FacesInRange adj.length faces) :
    ∃ adj1, nodeAdjacencyLoop faces f0 adj = some adj1 ∧ adj1.length = adj.length ∧
      NodeInv adj1 (fun g v => Inc g v ∨
        ∃ j face, faces[j]? = some face ∧ g = f0 + j ∧ (v : Int) ∈ faceVertices face) := by
  induction faces generalizing f0 adj Inc with
  | nil => exact ⟨adj, rfl, rfl, nodeInv_congr h (fun g v => by simp)⟩
  | cons face rest ih =>
    obtain ⟨adj1, h1, hlen1, hinv1⟩ := nodeInv_foldOpt f0 (faceVertices face) adj Inc h
      (hr face (List.mem_cons_self _ _))
    obtain ⟨adj2, h2, hlen2, hinv2⟩ := ih (f0 + 1) adj1 _ hinv1
      (fun face1 hf1 => hlen1 ▸ hr face1 (List.mem_cons_of_mem _ hf1))
    refine ⟨adj2, by simp only [nodeAdjacencyLoop, h1, h2], hlen2.trans hlen1,
      nodeInv_congr hinv2 (fun g v => ?_)⟩
    constructor
    · rintro ((h3 | ⟨rfl, h4⟩) | ⟨j, face1, hj, rfl, he⟩)
      · exact Or.inl h3
      · exact Or.inr ⟨0, face, by simp, by simp, h4⟩
      · exact Or.inr ⟨j + 1, face1, by simpa using hj, by omega, he⟩
    · rintro (h3 | ⟨j, face1, hj, rfl, he⟩)
      · exact Or.inl (Or.inl h3)
      · cases j with
        | zero =>
          simp only [List.getElem?_cons_zero, Option.some.injEq] at hj
          subst hj
          exact Or.inl (Or.inr ⟨by simp, he⟩)
        | succ j =>
          simp only [List.getElem?_cons_succ] at hj
          exact Or.inr ⟨j, face1, hj, by omega, he⟩

/-- The state the node adjacency construction ends in, for faces with indices in range. -/
theorem nodeInv_buildNodeAdjacency (n_nodes : Nat) (faces : List FaceType)
    (hr : FacesInRange n_nodes faces) :
    ∃ adj, buildNodeAdjacency n_nodes faces = some adj ∧ adj.length = n_nodes ∧
      NodeInv adj (fun g v => ∃ face, faces[g]? = some face ∧ (v : Int) ∈ faceVertices face) := by
  have h0 : NodeInv (List.replicate n_nodes ([] : IndexSet)) (fun _ _ => False) := by
    intro v s hs
    have hs1 : s = [] := by
      have := List.getElem?_mem hs
      exact (List.mem_replicate.1 this).2
    subst hs1
    exact ⟨fun g => by simp, List.Pairwise.nil⟩
  obtain ⟨adj, h1, hlen, hinv⟩ := nodeInv_nodeAdjacencyLoop faces 0
    (List.replicate n_nodes []) _ h0 (by simpa using hr)
  refine ⟨adj, h1, by simpa using hlen, nodeInv_congr hinv (fun g v => ?_)⟩
  constructor
  · rintro (h1 | ⟨j, face, hj, rfl, he⟩)
    · exact absurd h1 id
    · exact ⟨face, by simpa using hj, he⟩
  · rintro ⟨face, hg, he⟩
    exact Or.inr ⟨g, face, hg, by simp, he⟩

end CellMesh

namespace CellMesh
variable {K : Type} [LinearOrderedField K]

/-! ### The geometry routines return a value on a well-formed mesh -/

theorem faceArea_eq (sqrt : K → K) (m : CellMesh K)
    (hr : FacesInRange m.nodes_.length m.faces_) (f : Nat) (face : FaceType)
    (hf : m.faces_[f]? = some face) :
    FaceArea sqrt m f = some (heron sqrt (pointOf m.nodes_ face.v0)
      (pointOf m.nodes_ face.v1) (pointOf m.nodes_ face.v2)) := by
  obtain ⟨h0, h1, h2⟩ := facesInRange_face hr (List.getElem?_mem hf)
  simp only [FaceArea, hf, nodeAt_eq_pointOf _ _ h0, nodeAt_eq_pointOf _ _ h1,
    nodeAt_eq_pointOf _ _ h2]

theorem calculateFaceSurfaceAreas_eq (sqrt : K → K) (m : CellMesh K)
    (hr : FacesInRange m.nodes_.length m.faces_) :
    ∃ areas, mapOpt (FaceArea sqrt m) (List.range m.faces_.length) = some areas ∧
      areas.length = m.faces_.length ∧
      CalculateFaceSurfaceAreas sqrt m = some { m with surface_areas_for_faces_ := areas } := by
  obtain ⟨areas, ha⟩ := mapOpt_isSome (f := FaceArea sqrt m)
    (l := List.range m.faces_.length) (fun f hf => by
      have hlt : f < m.faces_.length := List.mem_range.1 hf
      exact ⟨_, faceArea_eq sqrt m hr f m.faces_[f] (List.getElem?_eq_getElem hlt)⟩)
  refine ⟨areas, ha, ?_, by simp only [CalculateFaceSurfaceAreas, ha]⟩
  rw [mapOpt_length ha, List.length_range]

theorem totalArea_eq (areas : List K) (s : IndexSet) (hs : ∀ f ∈ s, f < areas.length) :
    totalArea areas s = some ((s.map (fun f => areas.getD f 0)).sum) := by
  unfold totalArea
  rw [foldOpt_eq_foldl (fun total_area face_index => total_area + areas.getD face_index 0)]
  · rw [foldl_add_eq_sum]; simp
  · intro acc f hf
    have hlt := hs f hf
    simp [List.getElem?_eq_getElem hlt, List.getD_eq_getElem?_getD]

theorem nodeSurfaceArea_eq (m : CellMesh K) (i : Nat) (s : IndexSet)
    (hi : m.adjacent_faces_for_nodes_[i]? = some s)
    (hs : ∀ f ∈ s, f < m.surface_areas_for_faces_.length) :
    nodeSurfaceArea m i = some
      ((s.map (fun f => m.surface_areas_for_faces_.getD f 0)).sum / (s.length : K)) := by
  simp only [nodeSurfaceArea, hi, totalArea_eq _ s hs]

theorem calculateNodeSurfaceAreas_eq (m : CellMesh K)
    (hlen : m.adjacent_faces_for_nodes_.length = m.nodes_.length)
    (hadj : ∀ s ∈ m.adjacent_faces_for_nodes_, ∀ f ∈ s, f < m.surface_areas_for_faces_.length) :
    ∃ areas, mapOpt (nodeSurfaceArea m) (List.range m.nodes_.length) = some areas ∧
      areas.length = m.nodes_.length ∧
      CalculateNodeSurfaceAreas m = some { m with surface_areas_for_nodes_ := areas } := by
  obtain ⟨areas, ha⟩ := mapOpt_isSome (f := nodeSurfaceArea m)
    (l := List.range m.nodes_.length) (fun i hi => by
      have hlt : i < m.adjacent_faces_for_nodes_.length := hlen ▸ List.mem_range.1 hi
      have hget := List.getElem?_eq_getElem hlt
      exact ⟨_, nodeSurfaceArea_eq m i _ hget (hadj _ (List.getElem?_mem hget))⟩)
  refine ⟨areas, ha, ?_, by simp only [CalculateNodeSurfaceAreas, ha]⟩
  rw [mapOpt_length ha, List.length_range]

theorem calculateCellVolume_eq (m : CellMesh K)
    (hr : FacesInRange m.nodes_.length m.faces_) :
    CalculateCellVolume m = some (signedVolumeSum (centerOfMass m.nodes_) m.nodes_ m.faces_) :=
  volumeAbout_eq_sum _ _ _ hr

theorem orientFace_inRange (c : Vec3 K) (nodes : List (Vec3 K)) (n : Nat)
    (face face1 : FaceType) (h : orientFace c nodes face = some face1)
    (hin : ∀ v ∈ faceVertices face, IndexInRange n v) :
    (∀ v ∈ faceVertices face1, IndexInRange n v) ∧
    (∀ v, v ∈ faceVertices face1 ↔ v ∈ faceVertices face) := by
  have hcases : face1 = face ∨ face1 = ⟨face.v0, face.v2, face.v1⟩ := by
    unfold orientFace at h
    split at h
    · simp only at h
      split_ifs at h
      · exact Or.inr (Option.some.inj h).symm
      · exact Or.inl (Option.some.inj h).symm
    · exact absurd h (by simp)
  rcases hcases with rfl | rfl
  · exact ⟨hin, fun v => Iff.rfl⟩
  · have hiff : ∀ v, v ∈ faceVertices (⟨face.v0, face.v2, face.v1⟩ : FaceType) ↔
        v ∈ faceVertices face := by
      intro v; simp only [faceVertices, List.mem_cons, List.mem_singleton, List.not_mem_nil,
        or_false]; tauto
    exact ⟨fun v hv => hin v ((hiff v).1 hv), hiff⟩

theorem oriented_facesInRange (c : Vec3 K) (nodes : List (Vec3 K)) (n : Nat)
    (faces faces1 : List FaceType) (h : mapOpt (orientFace c nodes) faces = some faces1)
    (hr : FacesInRange n faces) : FacesInRange n faces1 := by
  intro face1 hf1
  obtain ⟨face, hf, hface⟩ := mapOpt_mem h hf1
  exact (orientFace_inRange c nodes n face face1 hface (hr face hf)).1

theorem faceNormal_eq (sqrt : K → K) (nodes : List (Vec3 K)) (face : FaceType)
    (h0 : IndexInRange nodes.length face.v0) (h1 : IndexInRange nodes.length face.v1)
    (h2 : IndexInRange nodes.length face.v2) :
    faceNormal sqrt nodes face = some ((((pointOf nodes face.v1).sub (pointOf nodes face.v0)).cross
      ((pointOf nodes face.v2).sub (pointOf nodes face.v1))).normalized sqrt) := by
  simp only [faceNormal, nodeAt_eq_pointOf _ _ h0, nodeAt_eq_pointOf _ _ h1,
    nodeAt_eq_pointOf _ _ h2]

theorem calculateFaceNormals_eq (sqrt : K → K) (m : CellMesh K)
    (hr : FacesInRange m.nodes_.length m.faces_) :
    ∃ normals, mapOpt (faceNormal sqrt m.nodes_) m.faces_ = some normals ∧
      normals.length = m.faces_.length ∧
      CalculateFaceNormals sqrt m = some { m with normals_for_faces_ := normals } := by
  obtain ⟨normals, hn⟩ := mapOpt_isSome (f := faceNormal sqrt m.nodes_) (l := m.faces_)
    (fun face hf => by
      obtain ⟨h0, h1, h2⟩ := facesInRange_face hr hf
      exact ⟨_, faceNormal_eq sqrt m.nodes_ face h0 h1 h2⟩)
  exact ⟨normals, hn, mapOpt_length hn, by simp only [CalculateFaceNormals, hn]⟩

theorem sumNormals_isSome (normals : List (Vec3 K)) (s : IndexSet)
    (hs : ∀ f ∈ s, f < normals.length) : ∃ v, sumNormals normals s = some v := by
  unfold sumNormals
  refine ⟨_, foldOpt_eq_foldl (fun node_normal face_index =>
    node_normal.add (normals.getD face_index Vec3.zero)) s ?_ _⟩
  intro acc f hf
  have hlt := hs f hf
  simp [List.getElem?_eq_getElem hlt, List.getD_eq_getElem?_getD]

theorem calculateNodeNormals_eq (sqrt : K → K) (m : CellMesh K) (hw : WellFormed m) :
    ∃ normals nodeNormals,
      mapOpt (faceNormal sqrt m.nodes_) m.faces_ = some normals ∧
      normals.length = m.faces_.length ∧ nodeNormals.length = m.nodes_.length ∧
      CalculateNodeNormals sqrt m = some { m with normals_for_faces_ := normals,
                                                  normals_for_nodes_ := nodeNormals } := by
  obtain ⟨hr, hlen, hadj⟩ := hw
  obtain ⟨normals, hn, hnlen, hcalc⟩ := calculateFaceNormals_eq sqrt m hr
  obtain ⟨nn, hnn⟩ := mapOpt_isSome
    (f := nodeNormal sqrt { m with normals_for_faces_ := normals })
    (l := List.range m.nodes_.length) (fun i hi => by
      have hlt : i < m.adjacent_faces_for_nodes_.length := hlen ▸ List.mem_range.1 hi
      have hget := List.getElem?_eq_getElem hlt
      obtain ⟨v, hv⟩ := sumNormals_isSome normals _ (fun f hf =>
        hnlen ▸ hadj _ (List.getElem?_mem hget) f hf)
      exact ⟨v.normalized sqrt, by simp only [nodeNormal, hget, hv]⟩)
  refine ⟨normals, nn, hn, hnlen, ?_, by simp only [CalculateNodeNormals, hcalc, hnn]⟩
  rw [mapOpt_length hnn, List.length_range]

end CellMesh

namespace CellMesh
variable {K : Type} [LinearOrderedField K]

/-! ### The constructor pipeline -/

theorem nodeInv_lt_length {adj : List IndexSet} {faces : List FaceType}
    (h : NodeInv adj (fun g v => ∃ face, faces[g]? = some face ∧ (v : Int) ∈ faceVertices face)) :
    ∀ s ∈ adj, ∀ f ∈ s, f < faces.length := by
  intro s hs f hf
  obtain ⟨v, hv⟩ := List.getElem?_of_mem hs
  obtain ⟨face, hface, _⟩ := ((h v s hv).1 f).1 hf
  exact (List.getElem?_eq_some_iff.1 hface).1

/-- The state at line 104, for records whose face indices are in range. -/
theorem loadTopology_eq (sqrt : K → K) (radius : K) (vertexRecords : List (K × K × K))
    (faceRecords : List (Int × Int × Int × Int))
    (hr : FacesInRange vertexRecords.length (faceRecords.map readFace)) :
    ∃ adj, buildNodeAdjacency vertexRecords.length (faceRecords.map readFace) = some adj ∧
      adj.length = vertexRecords.length ∧
      NodeInv adj (fun g v => ∃ face, (faceRecords.map readFace)[g]? = some face ∧
        (v : Int) ∈ faceVertices face) ∧
      loadTopology sqrt radius vertexRecords faceRecords = some
        { nodes_ := vertexRecords.map (rescaleVertex sqrt radius),
          faces_ := faceRecords.map readFace,
          edges_ := (buildEdges (faceRecords.map readFace)).1,
          adjacent_faces_for_edges_ := (buildEdges (faceRecords.map readFace)).2,
          adjacent_faces_for_nodes_ := adj,
          surface_areas_for_faces_ := [], surface_areas_for_nodes_ := [],
          normals_for_faces_ := [], normals_for_nodes_ := [],
          initial_cell_surface_area_ := 0, initial_cell_volume_ := 0 } := by
  obtain ⟨adj, h1, hlen, hinv⟩ := nodeInv_buildNodeAdjacency _ _ hr
  exact ⟨adj, h1, hlen, hinv, by simp only [loadTopology, h1]⟩

/-- The result of the geometry pipeline of the constructor on a well-formed mesh: the faces
are the oriented ones, and the initial volume is the volume sum over the faces as they
were before orientation. -/
theorem initGeometry_eq (sqrt : K → K) (m : CellMesh K) (hw : WellFormed m) :
    ∃ areas nodeAreas faces1 normals nodeNormals,
      mapOpt (FaceArea sqrt m) (List.range m.faces_.length) = some areas ∧
      mapOpt (orientFace (centerOfMass m.nodes_) m.nodes_) m.faces_ = some faces1 ∧
      mapOpt (faceNormal sqrt m.nodes_) faces1 = some normals ∧
      initGeometry sqrt m = some
        { nodes_ := m.nodes_, faces_ := faces1, edges_ := m.edges_,
          adjacent_faces_for_edges_ := m.adjacent_faces_for_edges_,
          adjacent_faces_for_nodes_ := m.adjacent_faces_for_nodes_,
          surface_areas_for_faces_ := areas, surface_areas_for_nodes_ := nodeAreas,
          normals_for_faces_ := normals, normals_for_nodes_ := nodeNormals,
          initial_cell_surface_area_ := areas.foldl (· + ·) 0,
          initial_cell_volume_ :=
            signedVolumeSum (centerOfMass m.nodes_) m.nodes_ m.faces_ } := by
  obtain ⟨hr, hlen, hadj⟩ := hw
  obtain ⟨areas, hareas, halen, h1⟩ := calculateFaceSurfaceAreas_eq sqrt m hr
  obtain ⟨nodeAreas, _, _, h2⟩ := calculateNodeSurfaceAreas_eq
    { m with surface_areas_for_faces_ := areas } hlen
    (fun s hs f hf => by rw [halen]; exact hadj s hs f hf)
  have h3 := calculateCellVolume_eq
    { m with surface_areas_for_faces_ := areas, surface_areas_for_nodes_ := nodeAreas,
             initial_cell_surface_area_ := areas.foldl (· + ·) 0 } hr
  obtain ⟨faces1, hf1, h5⟩ := makeFacesOriented_isSome
    { m with surface_areas_for_faces_ := areas, surface_areas_for_nodes_ := nodeAreas,
             initial_cell_surface_area_ := areas.foldl (· + ·) 0,
             initial_cell_volume_ :=
               signedVolumeSum (centerOfMass m.nodes_) m.nodes_ m.faces_ } hr
  have hw5 : WellFormed
      { m with faces_ := faces1, surface_areas_for_faces_ := areas,
               surface_areas_for_nodes_ := nodeAreas,
               initial_cell_surface_area_ := areas.foldl (· + ·) 0,
               initial_cell_volume_ :=
                 signedVolumeSum (centerOfMass m.nodes_) m.nodes_ m.faces_ } := by
    refine ⟨oriented_facesInRange _ _ _ _ _ hf1 hr, hlen, ?_⟩
    intro s hs f hf
    have := hadj s hs f hf
    simp only [mapOpt_length hf1]
    exact this
  obtain ⟨normals, nodeNormals, hn, _, _, h6⟩ := calculateNodeNormals_eq sqrt _ hw5
  refine ⟨areas, nodeAreas, faces1, normals, nodeNormals, hareas, hf1, hn, ?_⟩
  simp only [initGeometry, h1, h2, CalculateCellSurfaceArea, h3, h5, h6]

/-- The constructor on records whose face indices are in range: it returns, and the mesh
it returns is the loaded one with the faces oriented, the caches filled and the initial
volume computed on the faces as loaded. -/
theorem construct_eq (sqrt : K → K) (radius : K) (vertexRecords : List (K × K × K))
    (faceRecords : List (Int × Int × Int × Int))
    (hr : FacesInRange vertexRecords.length (faceRecords.map readFace)) :
    ∃ adj areas nodeAreas faces1 normals nodeNormals,
      buildNodeAdjacency vertexRecords.length (faceRecords.map readFace) = some adj ∧
      adj.length = vertexRecords.length ∧
      NodeInv adj (fun g v => ∃ face, (faceRecords.map readFace)[g]? = some face ∧
        (v : Int) ∈ faceVertices face) ∧
      mapOpt (orientFace (centerOfMass (vertexRecords.map (rescaleVertex sqrt radius)))
        (vertexRecords.map (rescaleVertex sqrt radius))) (faceRecords.map readFace)
        = some faces1 ∧
      mapOpt (faceNormal sqrt (vertexRecords.map (rescaleVertex sqrt radius))) faces1
        = some normals ∧
      construct sqrt radius vertexRecords faceRecords = some
        { nodes_ := vertexRecords.map (rescaleVertex sqrt radius),
          faces_ := faces1,
          edges_ := (buildEdges (faceRecords.map readFace)).1,
          adjacent_faces_for_edges_ := (buildEdges (faceRecords.map readFace)).2,
          adjacent_faces_for_nodes_ := adj,
          surface_areas_for_faces_ := areas, surface_areas_for_nodes_ := nodeAreas,
          normals_for_faces_ := normals, normals_for_nodes_ := nodeNormals,
          initial_cell_surface_area_ := areas.foldl (· + ·) 0,
          initial_cell_volume_ :=
            signedVolumeSum (centerOfMass (vertexRecords.map (rescaleVertex sqrt radius)))
              (vertexRecords.map (rescaleVertex sqrt radius)) (faceRecords.map readFace) } := by
  obtain ⟨adj, hadj, hlen, hinv, hload⟩ :=
    loadTopology_eq sqrt radius vertexRecords faceRecords hr
  have hw : WellFormed (K := K)
      { nodes_ := vertexRecords.map (rescaleVertex sqrt radius),
        faces_ := faceRecords.map readFace,
        edges_ := (buildEdges (faceRecords.map readFace)).1,
        adjacent_faces_for_edges_ := (buildEdges (faceRecords.map readFace)).2,
        adjacent_faces_for_nodes_ := adj,
        surface_areas_for_faces_ := [], surface_areas_for_nodes_ := [],
        normals_for_faces_ := [], normals_for_nodes_ := [],
        initial_cell_surface_area_ := 0, initial_cell_volume_ := 0 } := by
    refine ⟨by simpa using hr, by simpa using hlen, ?_⟩
    exact nodeInv_lt_length hinv
  obtain ⟨areas, nodeAreas, faces1, normals, nodeNormals, _, hf1, hn, hgeo⟩ :=
    initGeometry_eq sqrt _ hw
  exact ⟨adj, areas, nodeAreas, faces1, normals, nodeNormals, hadj, hlen, hinv, hf1, hn,
    by simp only [construct, hload, hgeo]⟩

/-! ### The constructor returns only on records whose face indices are in range -/

theorem insertAdjacentFace_some {f : Nat} {adj adj1 : List IndexSet} {vertex : Int}
    (h : insertAdjacentFace f adj vertex = some adj1) :
    IndexInRange adj.length vertex ∧ adj1.length = adj.length := by
  unfold insertAdjacentFace at h
  split_ifs at h with hc
  · have h1 := Option.some.inj h
    subst h1
    exact ⟨⟨hc.1, by have := hc.2; omega⟩, length_modifyAt _ _ _⟩

theorem foldOpt_insertAdjacentFace_some {f : Nat} {L : List Int} {adj adj1 : List IndexSet}
    (h : foldOpt (insertAdjacentFace f) adj L = some adj1) :
    (∀ vertex ∈ L, IndexInRange adj.length vertex) ∧ adj1.length = adj.length := by
  induction L generalizing adj with
  | nil =>
    simp only [foldOpt, Option.some.injEq] at h
    subst h; exact ⟨fun v hv => by simp at hv, rfl⟩
  | cons vertex rest ih =>
    simp only [foldOpt] at h
    cases h1 : insertAdjacentFace f adj vertex with
    | none => simp [h1] at h
    | some adj2 =>
      simp only [h1] at h
      obtain ⟨hv, hlen2⟩ := insertAdjacentFace_some h1
      obtain ⟨hrest, hlen1⟩ := ih h
      refine ⟨?_, hlen1.trans hlen2⟩
      intro w hw
      rcases List.mem_cons.1 hw with rfl | hw
      · exact hv
      · exact hlen2 ▸ hrest w hw

theorem nodeAdjacencyLoop_some {faces : List FaceType} {f0 : Nat} {adj adj1 : List IndexSet}
    (h : nodeAdjacencyLoop faces f0 adj = some adj1) : FacesInRange adj.length faces := by
  induction faces generalizing f0 adj with
  | nil => intro face hf; simp at hf
  | cons face rest ih =>
    simp only [nodeAdjacencyLoop] at h
    cases h1 : foldOpt (insertAdjacentFace f0) adj (faceVertices face) with
    | none => simp [h1] at h
    | some adj2 =>
      simp only [h1] at h
      obtain ⟨hv, hlen2⟩ := foldOpt_insertAdjacentFace_some h1
      have hrest := ih h
      intro face1 hf1
      rcases List.mem_cons.1 hf1 with rfl | hf1
      · exact hv
      · exact hlen2 ▸ hrest face1 hf1

theorem construct_some_inRange {sqrt : K → K} {radius : K} {vertexRecords : List (K × K × K)}
    {faceRecords : List (Int × Int × Int × Int)} {m : CellMesh K}
    (h : construct sqrt radius vertexRecords faceRecords = some m) :
    FacesInRange vertexRecords.length (faceRecords.map readFace) := by
  unfold construct loadTopology at h
  cases h1 : buildNodeAdjacency vertexRecords.length (faceRecords.map readFace) with
  | none => simp [h1] at h
  | some adj =>
    have := nodeAdjacencyLoop_some h1
    simpa using this

end CellMesh

namespace CellMesh

/-! ### The tetrahedron, evaluated -/

theorem rescale_tetraVertexRecords :
    (tetraVertexRecords ℝ).map (rescaleVertex Real.sqrt 1) = tetraNodes ℝ := by
  simp [tetraVertexRecords, tetraNodes, rescaleVertex]

theorem readFace_tetraFaceRecordsInward :
    tetraFaceRecordsInward.map readFace = tetraFacesInward := by
  decide

theorem centerOfMass_tetraNodes : centerOfMass (tetraNodes ℝ) = ⟨0, 1 / 4, 1 / 4⟩ := by
  simp [centerOfMass, tetraNodes, Vec3.add, Vec3.zero, Vec3.divScalar]

theorem orientFace_tetraFacesInward :
    mapOpt (orientFace (centerOfMass (tetraNodes ℝ)) (tetraNodes ℝ)) tetraFacesInward
      = some tetraFaces := by
  rw [centerOfMass_tetraNodes]
  simp [mapOpt, orientFace, tetraFacesInward, tetraFaces, tetraNodes, nodeAt, Vec3.sub,
    Vec3.dot, Vec3.cross]
  norm_num

theorem signedVolumeSum_tetraFacesInward :
    signedVolumeSum (centerOfMass (tetraNodes ℝ)) (tetraNodes ℝ) tetraFacesInward
      = -(1 / 3) := by
  rw [centerOfMass_tetraNodes]
  simp [signedVolumeSum, tetraFacesInward, tetraNodes, pointOf, nodeAt, volumeTerm, Vec3.sub,
    Vec3.dot, Vec3.cross]
  norm_num

theorem volumeAbout_tetraFaces :
    volumeAbout (centerOfMass (tetraNodes ℝ)) (tetraNodes ℝ) tetraFaces = some (1 / 3) := by
  rw [centerOfMass_tetraNodes]
  simp [volumeAbout, foldOpt, tetraFaces, tetraNodes, nodeAt, volumeTerm, Vec3.sub,
    Vec3.dot, Vec3.cross]
  norm_num

end CellMesh

namespace CellMesh
variable {K : Type} [LinearOrderedField K]

/-! ## C1: reference-point invariance of the volume -/

/-- C1. For a mesh whose face indices are in range and whose faces form a closed,
consistently oriented surface, the sum over faces of `(p1 - r).((p2 - r) x (p3 - r)) / 6`
is the same for every reference point `r`, the loop of `CalculateCellVolume` returns that
value whatever reference point it is run with, and `CalculateCellVolume` itself (which
uses the mean of the nodes) returns the value of the sum taken about the origin. -/
theorem calculateCellVolume_reference_point_invariant (m : CellMesh K)
    (hr : FacesInRange m.nodes_.length m.faces_) (hc : ClosedOriented m.faces_) :
    (∀ r : Vec3 K, signedVolumeSum r m.nodes_ m.faces_
        = signedVolumeSum Vec3.zero m.nodes_ m.faces_) ∧
    (∀ r : Vec3 K, volumeAbout r m.nodes_ m.faces_
        = some (signedVolumeSum Vec3.zero m.nodes_ m.faces_)) ∧
    CalculateCellVolume m = some (signedVolumeSum Vec3.zero m.nodes_ m.faces_) := by
  refine ⟨fun r => signedVolumeSum_invariant r _ _ hc, fun r => ?_, ?_⟩
  · rw [volumeAbout_eq_sum r _ _ hr, signedVolumeSum_invariant r _ _ hc]
  · rw [calculateCellVolume_eq m hr, signedVolumeSum_invariant _ _ _ hc]

/-- C1 on the tetrahedron: the hypotheses hold and the volume computed about the centre of
mass is the sum about the origin. -/
theorem calculateCellVolume_reference_point_invariant_witness :
    FacesInRange (meshOf (tetraNodes ℚ) tetraFaces).nodes_.length
      (meshOf (tetraNodes ℚ) tetraFaces).faces_ ∧
    ClosedOriented (meshOf (tetraNodes ℚ) tetraFaces).faces_ ∧
    CalculateCellVolume (meshOf (tetraNodes ℚ) tetraFaces)
      = some (signedVolumeSum Vec3.zero (tetraNodes ℚ) tetraFaces) :=
  ⟨by decide, by decide,
    (calculateCellVolume_reference_point_invariant (meshOf (tetraNodes ℚ) tetraFaces)
      (by decide) (by decide)).2.2⟩

/-! ## C2: orientation correctness -/

/-- C2. On a mesh with at least one node and face indices in range, `MakeFacesOriented`
returns, and for every face `(n1, n2, n3)` of the result the un-normalized normal
`(p2 - p1) x (p3 - p2)` has a non-negative scalar product with `pk - c` for each of the
three vertices `pk` of the face, `c` being the mean of the nodes. -/
theorem makeFacesOriented_normals_point_outward (m : CellMesh K) (_hne : m.nodes_ ≠ [])
    (hr : FacesInRange m.nodes_.length m.faces_) :
    ∃ m1, MakeFacesOriented m = some m1 ∧
      ∀ face ∈ m1.faces_, ∃ p1 p2 p3,
        nodeAt m1.nodes_ face.v0 = some p1 ∧ nodeAt m1.nodes_ face.v1 = some p2 ∧
        nodeAt m1.nodes_ face.v2 = some p3 ∧
        ∀ pk ∈ [p1, p2, p3],
          0 ≤ ((p2.sub p1).cross (p3.sub p2)).dot (pk.sub (centerOfMass m1.nodes_)) := by
  obtain ⟨faces, hf, hm⟩ := makeFacesOriented_isSome m hr
  refine ⟨_, hm, ?_⟩
  intro face1 hf1
  obtain ⟨face, hface, horient⟩ := mapOpt_mem hf hf1
  obtain ⟨h0, h1, h2⟩ := facesInRange_face hr hface
  obtain ⟨face2, hface2, _, p1, p2, p3, hp1, hp2, hp3, hpos⟩ :=
    orientFace_spec (centerOfMass m.nodes_) m.nodes_ face h0 h1 h2
  have heq : face2 = face1 := Option.some.inj (hface2.symm.trans horient)
  subst heq
  refine ⟨p1, p2, p3, hp1, hp2, hp3, ?_⟩
  obtain ⟨e2, e3, e1⟩ := orient_dot_eq (centerOfMass m.nodes_) p1 p2 p3
  intro pk hpk
  simp only [List.mem_cons, List.mem_singleton, List.not_mem_nil, or_false] at hpk
  rcases hpk with rfl | rfl | rfl
  · rw [e1]; exact hpos
  · rw [e2]; exact hpos
  · rw [e3]; exact hpos

/-- C2 on the tetrahedron with inward winding: the hypotheses hold and the conclusion is
obtained from the theorem. -/
theorem makeFacesOriented_normals_point_outward_witness :
    (meshOf (tetraNodes ℚ) tetraFacesInward).nodes_ ≠ [] ∧
    FacesInRange (meshOf (tetraNodes ℚ) tetraFacesInward).nodes_.length
      (meshOf (tetraNodes ℚ) tetraFacesInward).faces_ ∧
    ∃ m1, MakeFacesOriented (meshOf (tetraNodes ℚ) tetraFacesInward) = some m1 ∧
      ∀ face ∈ m1.faces_, ∃ p1 p2 p3,
        nodeAt m1.nodes_ face.v0 = some p1 ∧ nodeAt m1.nodes_ face.v1 = some p2 ∧
        nodeAt m1.nodes_ face.v2 = some p3 ∧
        ∀ pk ∈ [p1, p2, p3],
          0 ≤ ((p2.sub p1).cross (p3.sub p2)).dot (pk.sub (centerOfMass m1.nodes_)) :=
  ⟨by simp [meshOf, tetraNodes], by decide,
    makeFacesOriented_normals_point_outward (meshOf (tetraNodes ℚ) tetraFacesInward)
      (by simp [meshOf, tetraNodes]) (by decide)⟩

end CellMesh

namespace CellMesh
variable {K : Type} [LinearOrderedField K]

/-! ## C3: the frozen initial volume -/

/-- C3, as stated, fails: on the tetrahedron whose face records are wound inwards the
constructor returns a mesh whose frozen initial volume is `-1/3`, while
`CalculateCellVolume` on that mesh, whose faces `MakeFacesOriented` has rewound, returns
`1/3`. -/
theorem initial_volume_is_not_volume_of_constructed_mesh :
    ∃ m, construct Real.sqrt 1 (tetraVertexRecords ℝ) tetraFaceRecordsInward = some m ∧
      GetInitialVolume m = -(1 / 3) ∧ CalculateCellVolume m = some (1 / 3) ∧
      CalculateCellVolume m ≠ some (GetInitialVolume m) := by
  obtain ⟨adj, areas, nodeAreas, faces1, normals, nodeNormals, _, _, _, hf1, _, hc⟩ :=
    construct_eq Real.sqrt 1 (tetraVertexRecords ℝ) tetraFaceRecordsInward (by decide)
  rw [rescale_tetraVertexRecords, readFace_tetraFaceRecordsInward] at hf1 hc
  rw [orientFace_tetraFacesInward] at hf1
  have hfaces : faces1 = tetraFaces := (Option.some.inj hf1).symm
  subst hfaces
  refine ⟨_, hc, ?_, ?_, ?_⟩
  · exact signedVolumeSum_tetraFacesInward
  · exact volumeAbout_tetraFaces
  · simp only [CalculateCellVolume, GetInitialVolume, volumeAbout_tetraFaces,
      signedVolumeSum_tetraFacesInward]
    norm_num

/-- C3, amended. Whenever the constructor returns a mesh, the frozen initial volume is the
value `CalculateCellVolume` returns on the mesh as it is at line 104, with the nodes of the
constructed mesh and the faces in the winding order of the face records, before
`MakeFacesOriented`; it is the volume of the constructed mesh when `MakeFacesOriented`
changed no face. -/
theorem initial_volume_is_volume_before_orientation (sqrt : K → K) (radius : K)
    (vertexRecords : List (K × K × K)) (faceRecords : List (Int × Int × Int × Int))
    (m : CellMesh K) (h : construct sqrt radius vertexRecords faceRecords = some m) :
    ∃ m0, loadTopology sqrt radius vertexRecords faceRecords = some m0 ∧
      m0.nodes_ = m.nodes_ ∧ m0.faces_ = faceRecords.map readFace ∧
      CalculateCellVolume m0 = some (GetInitialVolume m) ∧
      (m.faces_ = m0.faces_ → CalculateCellVolume m = some (GetInitialVolume m)) := by
  have hr := construct_some_inRange h
  obtain ⟨adj, _, _, hinv, hload⟩ := loadTopology_eq sqrt radius vertexRecords faceRecords hr
  obtain ⟨adj1, areas, nodeAreas, faces1, normals, nodeNormals, hadj1, _, _, hf1, _, hc⟩ :=
    construct_eq sqrt radius vertexRecords faceRecords hr
  have hm := Option.some.inj (h.symm.trans hc)
  subst hm
  refine ⟨_, hload, rfl, rfl, ?_, ?_⟩
  · exact calculateCellVolume_eq _ (by simpa using hr)
  · intro hfaces
    simp only at hfaces
    subst hfaces
    exact calculateCellVolume_eq _ (by simpa using hr)

/-- The amended C3 on the tetrahedron with inward face records: the constructor returns,
and the theorem applies to the mesh it returns. -/
theorem initial_volume_is_volume_before_orientation_witness :
    ∃ m, construct Real.sqrt 1 (tetraVertexRecords ℝ) tetraFaceRecordsInward = some m ∧
      ∃ m0, loadTopology Real.sqrt 1 (tetraVertexRecords ℝ) tetraFaceRecordsInward = some m0 ∧
        m0.nodes_ = m.nodes_ ∧ m0.faces_ = tetraFaceRecordsInward.map readFace ∧
        CalculateCellVolume m0 = some (GetInitialVolume m) ∧
        (m.faces_ = m0.faces_ → CalculateCellVolume m = some (GetInitialVolume m)) := by
  obtain ⟨_, _, _, _, _, _, _, _, _, _, _, hc⟩ :=
    construct_eq Real.sqrt 1 (tetraVertexRecords ℝ) tetraFaceRecordsInward (by decide)
  exact ⟨_, hc, initial_volume_is_volume_before_orientation Real.sqrt 1
    (tetraVertexRecords ℝ) tetraFaceRecordsInward _ hc⟩

end CellMesh

namespace CellMesh
variable {K : Type} [LinearOrderedField K]

/-! ## C4: no manifold check -/

/-- C4, as stated, fails: for a single triangle, whose three edges have one incident face
each, the constructor returns a mesh, with those three edges and one face in each of
their adjacency sets. -/
theorem single_triangle_is_constructed :
    ∃ m, construct Real.sqrt 1 (triangleVertexRecords ℝ) triangleFaceRecords = some m ∧
      m.edges_ = [(0, 1), (0, 2), (1, 2)] ∧
      m.adjacent_faces_for_edges_ = [[0], [0], [0]] := by
  obtain ⟨_, _, _, _, _, _, _, _, _, _, _, hc⟩ :=
    construct_eq Real.sqrt 1 (triangleVertexRecords ℝ) triangleFaceRecords (by decide)
  have hedges : buildEdges (triangleFaceRecords.map readFace)
      = ([(0, 1), (0, 2), (1, 2)], [[0], [0], [0]]) := by decide
  refine ⟨_, hc, ?_, ?_⟩
  · simp only [hedges]
  · simp only [hedges]

/-- C4, amended. No manifold check is made: for all records whose face indices are in
range, whatever the incident-face counts of the edges, the constructor returns a mesh, and
in it the adjacency set of each edge has as many elements as there are faces that have
the edge among their three canonical edges. -/
theorem construct_makes_no_manifold_check (sqrt : K → K) (radius : K)
    (vertexRecords : List (K × K × K)) (faceRecords : List (Int × Int × Int × Int))
    (hr : FacesInRange vertexRecords.length (faceRecords.map readFace)) :
    ∃ m, construct sqrt radius vertexRecords faceRecords = some m ∧
      m.edges_.length = m.adjacent_faces_for_edges_.length ∧
      ∀ (k : Nat) (e : EdgeType), m.edges_[k]? = some e →
        ∃ s, m.adjacent_faces_for_edges_[k]? = some s ∧
          s.length = (faceRecords.map readFace).countP
            (fun face => decide (e ∈ canonicalEdges face)) := by
  obtain ⟨_, _, _, _, _, _, _, _, _, _, _, hc⟩ :=
    construct_eq sqrt radius vertexRecords faceRecords hr
  refine ⟨_, hc, (edgeInv_buildEdges _).1, ?_⟩
  intro k e hk
  obtain ⟨s, hs⟩ := buildEdges_getElem?_adjacent _ k e hk
  exact ⟨s, hs, buildEdges_adjacent_length _ k e s hk hs⟩

/-- The amended C4 on the single triangle. -/
theorem construct_makes_no_manifold_check_witness :
    FacesInRange (triangleVertexRecords ℝ).length (triangleFaceRecords.map readFace) ∧
    ∃ m, construct Real.sqrt 1 (triangleVertexRecords ℝ) triangleFaceRecords = some m ∧
      m.edges_.length = m.adjacent_faces_for_edges_.length ∧
      ∀ (k : Nat) (e : EdgeType), m.edges_[k]? = some e →
        ∃ s, m.adjacent_faces_for_edges_[k]? = some s ∧
          s.length = (triangleFaceRecords.map readFace).countP
            (fun face => decide (e ∈ canonicalEdges face)) :=
  ⟨by decide, construct_makes_no_manifold_check Real.sqrt 1 (triangleVertexRecords ℝ)
    triangleFaceRecords (by decide)⟩

end CellMesh

namespace CellMesh
variable {K : Type} [LinearOrderedField K]

/-! ## C5: degenerate faces -/

theorem normalized_zero (sqrt : K → K) : (Vec3.zero : Vec3 K).normalized sqrt = Vec3.zero := by
  simp [Vec3.normalized, Vec3.squaredNorm, Vec3.dot, Vec3.zero]

theorem rescale_degenerateVertexRecords :
    (degenerateVertexRecords ℝ).map (rescaleVertex Real.sqrt 1)
      = [⟨1, 0, 0⟩, ⟨0, 1, 0⟩] := by
  simp [degenerateVertexRecords, rescaleVertex]

/-- C5, as stated, fails: for a file with two vertices and the face record `3 0 0 1`,
which uses node `0` twice, the constructor returns a mesh, and the normal stored for
that face is the zero vector; `CalculateFaceNormals` called on the mesh state with these
nodes and this face returns, with the same zero normal. -/
theorem degenerate_face_gets_zero_normal :
    (∃ m, construct Real.sqrt 1 (degenerateVertexRecords ℝ) degenerateFaceRecords = some m ∧
      m.faces_ = [⟨0, 0, 1⟩] ∧ m.normals_for_faces_ = [Vec3.zero]) ∧
    (∃ m1, CalculateFaceNormals Real.sqrt (degenerateMesh ℝ) = some m1 ∧
      m1.normals_for_faces_ = [Vec3.zero]) := by
  constructor
  · obtain ⟨_, _, _, faces1, normals, _, _, _, _, hf1, hn, hc⟩ :=
      construct_eq Real.sqrt 1 (degenerateVertexRecords ℝ) degenerateFaceRecords (by decide)
    rw [rescale_degenerateVertexRecords] at hf1 hn hc
    have hfaces : faces1 = [⟨0, 0, 1⟩] := by
      have h : mapOpt (orientFace (centerOfMass [(⟨1, 0, 0⟩ : Vec3 ℝ), ⟨0, 1, 0⟩])
          [⟨1, 0, 0⟩, ⟨0, 1, 0⟩]) (degenerateFaceRecords.map readFace)
            = some [⟨0, 0, 1⟩] := by
        simp [degenerateFaceRecords, readFace, mapOpt, orientFace, nodeAt, Vec3.sub,
          Vec3.cross, Vec3.dot]
      exact Option.some.inj (hf1.symm.trans h)
    subst hfaces
    have hnormals : normals = [Vec3.zero] := by
      have h : mapOpt (faceNormal Real.sqrt [(⟨1, 0, 0⟩ : Vec3 ℝ), ⟨0, 1, 0⟩])
          [⟨0, 0, 1⟩] = some [Vec3.zero] := by
        simp [mapOpt, faceNormal, nodeAt, Vec3.sub, Vec3.cross, Vec3.normalized,
          Vec3.squaredNorm, Vec3.dot, Vec3.zero]
      exact Option.some.inj (hn.symm.trans h)
    subst hnormals
    exact ⟨_, hc, rfl, rfl⟩
  · refine ⟨{ degenerateMesh ℝ with normals_for_faces_ := [Vec3.zero] }, ?_, rfl⟩
    simp [CalculateFaceNormals, degenerateMesh, meshOf, mapOpt, faceNormal, nodeAt, Vec3.sub,
      Vec3.cross, Vec3.normalized, Vec3.squaredNorm, Vec3.dot, Vec3.zero]

/-- C5, amended. Degenerate faces are not rejected: on a well-formed mesh, for a face
whose vertex positions `p1`, `p2`, `p3` have `(p2 - p1) x (p3 - p2) = 0` (collinear or
repeated positions), `CalculateFaceNormals` returns and stores the zero vector as the
normal of that face, and `CalculateNodeNormals` returns as well, with the same zero normal
in the face normals. -/
theorem calculateFaceNormals_stores_zero_for_degenerate_face (sqrt : K → K) (m : CellMesh K)
    (hw : WellFormed m) (f : Nat) (face : FaceType) (p1 p2 p3 : Vec3 K)
    (hf : m.faces_[f]? = some face) (h1 : nodeAt m.nodes_ face.v0 = some p1)
    (h2 : nodeAt m.nodes_ face.v1 = some p2) (h3 : nodeAt m.nodes_ face.v2 = some p3)
    (hdeg : (p2.sub p1).cross (p3.sub p2) = Vec3.zero) :
    (∃ m1, CalculateFaceNormals sqrt m = some m1 ∧
      m1.normals_for_faces_[f]? = some Vec3.zero) ∧
    (∃ m2, CalculateNodeNormals sqrt m = some m2 ∧
      m2.normals_for_faces_[f]? = some Vec3.zero) := by
  obtain ⟨normals, nodeNormals, hn, _, _, hcalc⟩ := calculateNodeNormals_eq sqrt m hw
  obtain ⟨normals1, hn1, _, hcalc1⟩ := calculateFaceNormals_eq sqrt m hw.1
  have heq : normals1 = normals := Option.some.inj (hn1.symm.trans hn)
  subst heq
  obtain ⟨b, hb, hfb⟩ := mapOpt_getElem? hn hf
  have hzero : b = Vec3.zero := by
    simp only [faceNormal, h1, h2, h3, hdeg, normalized_zero, Option.some.injEq] at hfb
    exact hfb.symm
  subst hzero
  exact ⟨⟨_, hcalc1, hb⟩, ⟨_, hcalc, hb⟩⟩

/-- The amended C5 on the mesh whose only face uses node `0` twice. -/
theorem calculateFaceNormals_stores_zero_for_degenerate_face_witness :
    WellFormed (degenerateMesh ℝ) ∧
    (∃ m1, CalculateFaceNormals Real.sqrt (degenerateMesh ℝ) = some m1 ∧
      m1.normals_for_faces_[0]? = some Vec3.zero) ∧
    (∃ m2, CalculateNodeNormals Real.sqrt (degenerateMesh ℝ) = some m2 ∧
      m2.normals_for_faces_[0]? = some Vec3.zero) :=
  ⟨by decide, calculateFaceNormals_stores_zero_for_degenerate_face Real.sqrt
    (degenerateMesh ℝ) (by decide) 0 ⟨0, 0, 1⟩ ⟨1, 0, 0⟩ ⟨1, 0, 0⟩ ⟨0, 1, 0⟩ rfl rfl rfl rfl
    (by simp [Vec3.sub, Vec3.cross, Vec3.zero])⟩

/-! ## C6: no range check on face indices -/

/-- C6, as stated, fails: for a file with three vertex records and the face record
`3 0 1 7`, whose last index is out of range, the face is stored as read and the edge
construction builds its three edges, two of them with the index `7`; the node adjacency
loop that follows then indexes its vector of three sets with `7`, which has no defined
result. -/
theorem out_of_range_face_reaches_edge_construction :
    ¬ FacesInRange (triangleVertexRecords ℝ).length (outOfRangeFaceRecords.map readFace) ∧
    outOfRangeFaceRecords.map readFace = [⟨0, 1, 7⟩] ∧
    buildEdges (outOfRangeFaceRecords.map readFace)
      = ([(0, 1), (0, 7), (1, 7)], [[0], [0], [0]]) ∧
    buildNodeAdjacency (triangleVertexRecords ℝ).length (outOfRangeFaceRecords.map readFace)
      = none := by
  refine ⟨by decide, by decide, by decide, by decide⟩

/-- C6, amended. Face records are stored as read, without a range check: for every list of
face records, whatever its indices, the edge construction runs over all the stored faces
and `edges_` holds the three canonical edges of every one of them. -/
theorem edges_are_built_without_range_check (faceRecords : List (Int × Int × Int × Int)) :
    (faceRecords.map readFace).length = faceRecords.length ∧
    ∀ r ∈ faceRecords, ∀ e ∈ canonicalEdges (readFace r),
      e ∈ (buildEdges (faceRecords.map readFace)).1 := by
  refine ⟨List.length_map _ _, ?_⟩
  intro r hr e he
  obtain ⟨_, _, hmem, _⟩ := edgeInv_buildEdges (faceRecords.map readFace)
  obtain ⟨g, hg⟩ := List.getElem?_of_mem (List.mem_map_of_mem readFace hr)
  exact (hmem e).2 ⟨g, readFace r, hg, he⟩

/-! ## C7: edge-to-face adjacency -/

/-- C7. For every face list, after the edge construction loop `edges_` and
`adjacent_faces_for_edges_` have the same length, and at every position `k` the set
`adjacent_faces_for_edges_[k]` (an ascending sequence without repetition) has as its
elements exactly the face indices `f` for which `edges_[k]` is one of the three canonical
edges of `faces_[f]`. -/
theorem buildEdges_adjacency_exact (faces : List FaceType) :
    (buildEdges faces).1.length = (buildEdges faces).2.length ∧
    ∀ k < (buildEdges faces).1.length, ∃ e s,
      (buildEdges faces).1[k]? = some e ∧ (buildEdges faces).2[k]? = some s ∧
      s.Pairwise (· < ·) ∧
      ∀ f, f ∈ s ↔ ∃ face, faces[f]? = some face ∧ e ∈ canonicalEdges face := by
  obtain ⟨hlen, _, _, hadj, hsort⟩ := edgeInv_buildEdges faces
  refine ⟨hlen, ?_⟩
  intro k hk
  have hk2 : k < (buildEdges faces).2.length := hlen ▸ hk
  have he := List.getElem?_eq_getElem hk
  have hs := List.getElem?_eq_getElem hk2
  exact ⟨_, _, he, hs, hsort _ (List.getElem?_mem hs), hadj k _ _ he hs⟩

/-! ## C8: vertex-to-face adjacency -/

theorem mapOpt_getElem?_rev {α β : Type} {f : α → Option β} {l : List α} {bs : List β}
    (h : mapOpt f l = some bs) {i : Nat} {b : β} (hb : bs[i]? = some b) :
    ∃ a, l[i]? = some a ∧ f a = some b := by
  have hlt : i < l.length := mapOpt_length h ▸ (List.getElem?_eq_some_iff.1 hb).1
  obtain ⟨b1, hb1, hfa⟩ := mapOpt_getElem? h (List.getElem?_eq_getElem hlt)
  have : b1 = b := Option.some.inj (hb1.symm.trans hb)
  subst this
  exact ⟨_, List.getElem?_eq_getElem hlt, hfa⟩

/-- C8. For records whose face indices all lie in `[0, n_nodes)`, the constructor returns
a mesh in which `adjacent_faces_for_nodes_` has length `n_nodes` and, for every node `v`,
the set `adjacent_faces_for_nodes_[v]` (an ascending sequence without repetition) has as
its elements exactly the face indices `f` such that `v` is one of the three entries of
face `f`, both for the faces as loaded and for `faces_` as `MakeFacesOriented` has left
them. -/
theorem construct_node_adjacency_exact (sqrt : K → K) (radius : K)
    (vertexRecords : List (K × K × K)) (faceRecords : List (Int × Int × Int × Int))
    (hr : FacesInRange vertexRecords.length (faceRecords.map readFace)) :
    ∃ m, construct sqrt radius vertexRecords faceRecords = some m ∧
      m.adjacent_faces_for_nodes_.length = vertexRecords.length ∧
      ∀ v < vertexRecords.length, ∃ s, m.adjacent_faces_for_nodes_[v]? = some s ∧
        s.Pairwise (· < ·) ∧
        (∀ f, f ∈ s ↔ ∃ face, (faceRecords.map readFace)[f]? = some face ∧
          (v : Int) ∈ faceVertices face) ∧
        (∀ f, f ∈ s ↔ ∃ face, m.faces_[f]? = some face ∧ (v : Int) ∈ faceVertices face) := by
  obtain ⟨adj, _, _, faces1, _, _, _, hlen, hinv, hf1, _, hc⟩ :=
    construct_eq sqrt radius vertexRecords faceRecords hr
  refine ⟨_, hc, hlen, ?_⟩
  intro v hv
  have hget := List.getElem?_eq_getElem (hlen ▸ hv : v < adj.length)
  obtain ⟨hmem, hsort⟩ := hinv v _ hget
  refine ⟨_, hget, hsort, hmem, ?_⟩
  intro f
  rw [hmem f]
  constructor
  · rintro ⟨face, hface, hvf⟩
    obtain ⟨face1, hface1, horient⟩ := mapOpt_getElem? hf1 hface
    exact ⟨face1, hface1, ((orientFace_inRange _ _ vertexRecords.length face face1 horient
      (hr face (List.getElem?_mem hface))).2 _).2 hvf⟩
  · rintro ⟨face1, hface1, hvf⟩
    obtain ⟨face, hface, horient⟩ := mapOpt_getElem?_rev hf1 hface1
    exact ⟨face, hface, ((orientFace_inRange _ _ vertexRecords.length face face1 horient
      (hr face (List.getElem?_mem hface))).2 _).1 hvf⟩

/-- C8 on the tetrahedron with inward face records. -/
theorem construct_node_adjacency_exact_witness :
    FacesInRange (tetraVertexRecords ℝ).length (tetraFaceRecordsInward.map readFace) ∧
    ∃ m, construct Real.sqrt 1 (tetraVertexRecords ℝ) tetraFaceRecordsInward = some m ∧
      m.adjacent_faces_for_nodes_.length = (tetraVertexRecords ℝ).length ∧
      ∀ v < (tetraVertexRecords ℝ).length, ∃ s, m.adjacent_faces_for_nodes_[v]? = some s ∧
        s.Pairwise (· < ·) ∧
        (∀ f, f ∈ s ↔ ∃ face, (tetraFaceRecordsInward.map readFace)[f]? = some face ∧
          (v : Int) ∈ faceVertices face) ∧
        (∀ f, f ∈ s ↔ ∃ face, m.faces_[f]? = some face ∧ (v : Int) ∈ faceVertices face) :=
  ⟨by decide, construct_node_adjacency_exact Real.sqrt 1 (tetraVertexRecords ℝ)
    tetraFaceRecordsInward (by decide)⟩

end CellMesh

namespace CellMesh
variable {K : Type} [LinearOrderedField K]

/-! ## C9: edge count of a closed mesh -/

/-- C9. For a face list in which every face has three distinct vertices and every
canonical edge of a face is a canonical edge of exactly two faces, the constructed
`edges_` has no repeated entry, every set in `adjacent_faces_for_edges_` has exactly two
elements (its sequence has length two and no repetition), and
`2 * |edges_| = 3 * |faces_|`. -/
theorem buildEdges_closed_mesh_edge_count (faces : List FaceType)
    (hdist : ∀ face ∈ faces, face.v0 ≠ face.v1 ∧ face.v1 ≠ face.v2 ∧ face.v0 ≠ face.v2)
    (htwo : ∀ face ∈ faces, ∀ e ∈ canonicalEdges face,
      faces.countP (fun g => decide (e ∈ canonicalEdges g)) = 2) :
    (buildEdges faces).1.Nodup ∧
    (∀ s ∈ (buildEdges faces).2, s.Nodup ∧ s.length = 2) ∧
    2 * (buildEdges faces).1.length = 3 * faces.length := by
  obtain ⟨hlen, hnd, hmem, hadj, hsort⟩ := edgeInv_buildEdges faces
  have hcount : ∀ e ∈ (buildEdges faces).1,
      faces.countP (fun g => decide (e ∈ canonicalEdges g)) = 2 := by
    intro e he
    obtain ⟨f, face, hface, hef⟩ := (hmem e).1 he
    exact htwo face (List.getElem?_mem hface) e hef
  refine ⟨hnd, ?_, ?_⟩
  · intro s hs
    obtain ⟨k, hk⟩ := List.getElem?_of_mem hs
    have hklt : k < (buildEdges faces).1.length := hlen ▸ (List.getElem?_eq_some_iff.1 hk).1
    have he := List.getElem?_eq_getElem hklt
    refine ⟨(hsort s hs).imp (fun h => ne_of_lt h), ?_⟩
    rw [buildEdges_adjacent_length faces k _ s he hk]
    exact hcount _ (List.getElem?_mem he)
  · have h1 : ((buildEdges faces).1.map (fun e =>
        faces.countP (fun g => decide (e ∈ canonicalEdges g)))).sum
          = 2 * (buildEdges faces).1.length :=
      sum_map_const_nat _ 2 _ hcount
    have h2 : (faces.map (fun g =>
        (buildEdges faces).1.countP (fun e => decide (e ∈ canonicalEdges g)))).sum
          = 3 * faces.length := by
      refine sum_map_const_nat _ 3 _ (fun g hg => ?_)
      rw [countP_mem_eq_length _ _ hnd (canonicalEdges_nodup g (hdist g hg))]
      · rfl
      · intro c hc
        obtain ⟨i, hi⟩ := List.getElem?_of_mem hg
        exact (hmem c).2 ⟨i, g, hi, hc⟩
    rw [← h1, ← h2]
    exact sum_countP_comm (fun e g => decide (e ∈ canonicalEdges g)) _ _

set_option maxRecDepth 100000 in
/-- C9 on the icosahedron: twenty faces, every edge shared by two of them, hence thirty
edges. -/
theorem buildEdges_closed_mesh_edge_count_witness :
    (∀ face ∈ icosahedronFaces,
      face.v0 ≠ face.v1 ∧ face.v1 ≠ face.v2 ∧ face.v0 ≠ face.v2) ∧
    (∀ face ∈ icosahedronFaces, ∀ e ∈ canonicalEdges face,
      icosahedronFaces.countP (fun g => decide (e ∈ canonicalEdges g)) = 2) ∧
    (buildEdges icosahedronFaces).1.Nodup ∧
    (∀ s ∈ (buildEdges icosahedronFaces).2, s.Nodup ∧ s.length = 2) ∧
    2 * (buildEdges icosahedronFaces).1.length = 3 * icosahedronFaces.length :=
  ⟨by decide, by decide,
    buildEdges_closed_mesh_edge_count icosahedronFaces (by decide) (by decide)⟩

/-! ## C10: the vertex-area law -/

/-- C10. On a mesh state with one adjacency set per node, each an ascending sequence
without repetition naming faces that have a cached area, `CalculateNodeSurfaceAreas`
returns, changes nothing but `surface_areas_for_nodes_`, and for every node `i` with at
least one incident face stores the sum of the cached areas `surface_areas_for_faces_[f]`
over the faces `f` of `adjacent_faces_for_nodes_[i]`, each taken once, divided by the
number of those faces. -/
theorem calculateNodeSurfaceAreas_is_mean_of_incident_face_areas (m : CellMesh K)
    (hlen : m.adjacent_faces_for_nodes_.length = m.nodes_.length)
    (hset : ∀ s ∈ m.adjacent_faces_for_nodes_, s.Pairwise (· < ·))
    (hadj : ∀ s ∈ m.adjacent_faces_for_nodes_, ∀ f ∈ s, f < m.surface_areas_for_faces_.length) :
    ∃ areas, CalculateNodeSurfaceAreas m = some { m with surface_areas_for_nodes_ := areas } ∧
      areas.length = m.nodes_.length ∧
      ∀ i < m.nodes_.length, ∃ s, m.adjacent_faces_for_nodes_[i]? = some s ∧
        (s ≠ [] →
          areas[i]? = some ((s.map (fun f => m.surface_areas_for_faces_.getD f 0)).sum
            / (s.length : K)) ∧
          areas[i]? = some ((∑ f ∈ s.toFinset, m.surface_areas_for_faces_.getD f 0)
            / (s.toFinset.card : K))) := by
  obtain ⟨areas, ha, halen, hcalc⟩ := calculateNodeSurfaceAreas_eq m hlen hadj
  refine ⟨areas, hcalc, halen, ?_⟩
  intro i hi
  have hget := List.getElem?_eq_getElem (hlen ▸ hi : i < m.adjacent_faces_for_nodes_.length)
  refine ⟨_, hget, fun _ => ?_⟩
  have hs := List.getElem?_mem hget
  have hrange : (List.range m.nodes_.length)[i]? = some i := by
    rw [List.getElem?_range hi]
  obtain ⟨a, hai, hval⟩ := mapOpt_getElem? ha hrange
  rw [nodeSurfaceArea_eq m i _ hget (hadj _ hs)] at hval
  have hnd : (m.adjacent_faces_for_nodes_[i]).Nodup := (hset _ hs).imp (fun h => ne_of_lt h)
  refine ⟨by rw [hai, ← hval], ?_⟩
  rw [hai, ← hval, List.sum_toFinset _ hnd, List.toFinset_card_of_nodup hnd]

/-- C10 on the tetrahedron with cached face areas `1, 2, 3, 4`. -/
theorem calculateNodeSurfaceAreas_is_mean_of_incident_face_areas_witness :
    tetraMeshWithAreas.adjacent_faces_for_nodes_.length = tetraMeshWithAreas.nodes_.length ∧
    (∀ s ∈ tetraMeshWithAreas.adjacent_faces_for_nodes_, s.Pairwise (· < ·)) ∧
    (∀ s ∈ tetraMeshWithAreas.adjacent_faces_for_nodes_, ∀ f ∈ s,
      f < tetraMeshWithAreas.surface_areas_for_faces_.length) ∧
    ∃ areas, CalculateNodeSurfaceAreas tetraMeshWithAreas
        = some { tetraMeshWithAreas with surface_areas_for_nodes_ := areas } ∧
      areas.length = tetraMeshWithAreas.nodes_.length ∧
      ∀ i < tetraMeshWithAreas.nodes_.length,
        ∃ s, tetraMeshWithAreas.adjacent_faces_for_nodes_[i]? = some s ∧
        (s ≠ [] →
          areas[i]? = some
            ((s.map (fun f => tetraMeshWithAreas.surface_areas_for_faces_.getD f 0)).sum
              / (s.length : ℚ)) ∧
          areas[i]? = some
            ((∑ f ∈ s.toFinset, tetraMeshWithAreas.surface_areas_for_faces_.getD f 0)
              / (s.toFinset.card : ℚ))) :=
  ⟨by decide, by decide, by decide,
    calculateNodeSurfaceAreas_is_mean_of_incident_face_areas tetraMeshWithAreas
      (by decide) (by decide) (by decide)⟩

end CellMesh

namespace CellMesh
variable {K : Type} [LinearOrderedField K]

/-! ## C14: the frozen initial values -/

theorem calculateFaceSurfaceAreas_some {sqrt : K → K} {m m1 : CellMesh K}
    (h : CalculateFaceSurfaceAreas sqrt m = some m1) :
    ∃ areas, m1 = { m with surface_areas_for_faces_ := areas } := by
  unfold CalculateFaceSurfaceAreas at h
  cases hm : mapOpt (FaceArea sqrt m) (List.range m.faces_.length) with
  | none => simp [hm] at h
  | some areas => exact ⟨areas, by simp only [hm, Option.some.injEq] at h; exact h.symm⟩

theorem calculateNodeSurfaceAreas_some {m m1 : CellMesh K}
    (h : CalculateNodeSurfaceAreas m = some m1) :
    ∃ areas, m1 = { m with surface_areas_for_nodes_ := areas } := by
  unfold CalculateNodeSurfaceAreas at h
  cases hm : mapOpt (nodeSurfaceArea m) (List.range m.nodes_.length) with
  | none => simp [hm] at h
  | some areas => exact ⟨areas, by simp only [hm, Option.some.injEq] at h; exact h.symm⟩

theorem makeFacesOriented_some {m m1 : CellMesh K} (h : MakeFacesOriented m = some m1) :
    ∃ faces, mapOpt (orientFace (centerOfMass m.nodes_) m.nodes_) m.faces_ = some faces ∧
      m1 = { m with faces_ := faces } := by
  unfold MakeFacesOriented at h
  cases hm : mapOpt (orientFace (centerOfMass m.nodes_) m.nodes_) m.faces_ with
  | none => simp [hm] at h
  | some faces => exact ⟨faces, rfl, by simp only [hm, Option.some.injEq] at h; exact h.symm⟩

theorem calculateFaceNormals_some {sqrt : K → K} {m m1 : CellMesh K}
    (h : CalculateFaceNormals sqrt m = some m1) :
    ∃ normals, mapOpt (faceNormal sqrt m.nodes_) m.faces_ = some normals ∧
      m1 = { m with normals_for_faces_ := normals } := by
  unfold CalculateFaceNormals at h
  cases hm : mapOpt (faceNormal sqrt m.nodes_) m.faces_ with
  | none => simp [hm] at h
  | some normals => exact ⟨normals, rfl, by simp only [hm, Option.some.injEq] at h; exact h.symm⟩

theorem calculateNodeNormals_some {sqrt : K → K} {m m2 : CellMesh K}
    (h : CalculateNodeNormals sqrt m = some m2) :
    ∃ normals nodeNormals, mapOpt (faceNormal sqrt m.nodes_) m.faces_ = some normals ∧
      mapOpt (nodeNormal sqrt { m with normals_for_faces_ := normals })
        (List.range m.nodes_.length) = some nodeNormals ∧
      m2 = { m with normals_for_faces_ := normals, normals_for_nodes_ := nodeNormals } := by
  unfold CalculateNodeNormals at h
  cases h1 : CalculateFaceNormals sqrt m with
  | none => simp [h1] at h
  | some m1 =>
    obtain ⟨normals, hn, rfl⟩ := calculateFaceNormals_some h1
    simp only [h1] at h
    cases h2 : mapOpt (nodeNormal sqrt { m with normals_for_faces_ := normals })
        (List.range m.nodes_.length) with
    | none => simp [h2] at h
    | some nodeNormals =>
      exact ⟨normals, nodeNormals, hn, h2,
        by simp only [h2, Option.some.injEq] at h; exact h.symm⟩

/-- C14. `SetInitialVolume(v)` makes `GetInitialVolume()` return `v` and leaves every
other data member as it was; and whenever one of `CalculateFaceSurfaceAreas`,
`CalculateNodeSurfaceAreas`, `MakeFacesOriented`, `CalculateFaceNormals`,
`CalculateNodeNormals` returns, the initial volume and the initial surface area of the
state it leaves are those of the state it was called on.  `CalculateCellSurfaceArea` and
`CalculateCellVolume` return a number and leave no new state. -/
theorem initial_values_change_only_through_setInitialVolume (sqrt : K → K) (m : CellMesh K)
    (v : K) :
    (GetInitialVolume (SetInitialVolume m v) = v ∧
      (SetInitialVolume m v).nodes_ = m.nodes_ ∧
      (SetInitialVolume m v).faces_ = m.faces_ ∧
      (SetInitialVolume m v).edges_ = m.edges_ ∧
      (SetInitialVolume m v).adjacent_faces_for_edges_ = m.adjacent_faces_for_edges_ ∧
      (SetInitialVolume m v).adjacent_faces_for_nodes_ = m.adjacent_faces_for_nodes_ ∧
      (SetInitialVolume m v).surface_areas_for_faces_ = m.surface_areas_for_faces_ ∧
      (SetInitialVolume m v).surface_areas_for_nodes_ = m.surface_areas_for_nodes_ ∧
      (SetInitialVolume m v).normals_for_faces_ = m.normals_for_faces_ ∧
      (SetInitialVolume m v).normals_for_nodes_ = m.normals_for_nodes_ ∧
      GetInitialSurfaceArea (SetInitialVolume m v) = GetInitialSurfaceArea m) ∧
    (∀ m1, CalculateFaceSurfaceAreas sqrt m = some m1 →
      GetInitialVolume m1 = GetInitialVolume m ∧
      GetInitialSurfaceArea m1 = GetInitialSurfaceArea m) ∧
    (∀ m1, CalculateNodeSurfaceAreas m = some m1 →
      GetInitialVolume m1 = GetInitialVolume m ∧
      GetInitialSurfaceArea m1 = GetInitialSurfaceArea m) ∧
    (∀ m1, MakeFacesOriented m = some m1 →
      GetInitialVolume m1 = GetInitialVolume m ∧
      GetInitialSurfaceArea m1 = GetInitialSurfaceArea m) ∧
    (∀ m1, CalculateFaceNormals sqrt m = some m1 →
      GetInitialVolume m1 = GetInitialVolume m ∧
      GetInitialSurfaceArea m1 = GetInitialSurfaceArea m) ∧
    (∀ m1, CalculateNodeNormals sqrt m = some m1 →
      GetInitialVolume m1 = GetInitialVolume m ∧
      GetInitialSurfaceArea m1 = GetInitialSurfaceArea m) := by
  refine ⟨⟨rfl, rfl, rfl, rfl, rfl, rfl, rfl, rfl, rfl, rfl, rfl⟩, ?_, ?_, ?_, ?_, ?_⟩
  · intro m1 h
    obtain ⟨_, rfl⟩ := calculateFaceSurfaceAreas_some h
    exact ⟨rfl, rfl⟩
  · intro m1 h
    obtain ⟨_, rfl⟩ := calculateNodeSurfaceAreas_some h
    exact ⟨rfl, rfl⟩
  · intro m1 h
    obtain ⟨_, _, rfl⟩ := makeFacesOriented_some h
    exact ⟨rfl, rfl⟩
  · intro m1 h
    obtain ⟨_, _, rfl⟩ := calculateFaceNormals_some h
    exact ⟨rfl, rfl⟩
  · intro m1 h
    obtain ⟨_, _, _, _, rfl⟩ := calculateNodeNormals_some h
    exact ⟨rfl, rfl⟩

/-! ## C15: edges are canonical and unique -/

theorem canonicalEdges_le (face : FaceType) (e : EdgeType) (h : e ∈ canonicalEdges face) :
    e.1 ≤ e.2 := by
  simp only [canonicalEdges, List.mem_cons, List.mem_singleton, List.not_mem_nil,
    or_false] at h
  rcases h with rfl | rfl | rfl <;> exact min_le_max

/-- C15. For every face list, every entry `(a, b)` of the constructed `edges_` has
`a ≤ b`, no two entries of `edges_` are equal, and the entries are exactly the pairs
`(min(u,v), max(u,v))` over the three vertex pairs of every face. -/
theorem buildEdges_canonical_and_unique (faces : List FaceType) :
    (∀ e ∈ (buildEdges faces).1, e.1 ≤ e.2) ∧
    (buildEdges faces).1.Nodup ∧
    ∀ e, e ∈ (buildEdges faces).1 ↔ ∃ face ∈ faces, e ∈ canonicalEdges face := by
  obtain ⟨_, hnd, hmem, _, _⟩ := edgeInv_buildEdges faces
  have hiff : ∀ e, e ∈ (buildEdges faces).1 ↔ ∃ face ∈ faces, e ∈ canonicalEdges face := by
    intro e
    rw [hmem e]
    constructor
    · rintro ⟨f, face, hface, he⟩
      exact ⟨face, List.getElem?_mem hface, he⟩
    · rintro ⟨face, hface, he⟩
      obtain ⟨f, hf⟩ := List.getElem?_of_mem hface
      exact ⟨f, face, hf, he⟩
  refine ⟨?_, hnd, hiff⟩
  intro e he
  obtain ⟨face, _, hef⟩ := (hiff e).1 he
  exact canonicalEdges_le face e hef

end CellMesh

namespace CellMesh
variable {K : Type} [LinearOrderedField K]

/-! ## C17: after orientation the volume sum has no negative term -/

theorem orient_test_eq_volumeTerm (c p1 p2 p3 : Vec3 K) :
    (p1.sub c).dot ((p2.sub p1).cross (p3.sub p2)) = 6 * volumeTerm c p1 p2 p3 := by
  simp only [volumeTerm, Vec3.dot, Vec3.cross, Vec3.sub]
  ring

theorem volumeTerm_swap (c p1 p2 p3 : Vec3 K) :
    volumeTerm c p1 p3 p2 = - volumeTerm c p1 p2 p3 := by
  simp only [volumeTerm, Vec3.dot, Vec3.cross, Vec3.sub]
  ring

/-- What `orientFace` does to the volume term of a face whose indices are in range. -/
theorem orientFace_volumeTerm (c : Vec3 K) (nodes : List (Vec3 K)) (face face1 : FaceType)
    (h0 : IndexInRange nodes.length face.v0) (h1 : IndexInRange nodes.length face.v1)
    (h2 : IndexInRange nodes.length face.v2) (h : orientFace c nodes face = some face1) :
    (face1 = face ∨ face1 = ⟨face.v0, face.v2, face.v1⟩) ∧
    volumeTerm c (pointOf nodes face1.v0) (pointOf nodes face1.v1) (pointOf nodes face1.v2)
      = |volumeTerm c (pointOf nodes face.v0) (pointOf nodes face.v1) (pointOf nodes face.v2)| := by
  unfold orientFace at h
  rw [nodeAt_eq_pointOf _ _ h0, nodeAt_eq_pointOf _ _ h1, nodeAt_eq_pointOf _ _ h2] at h
  simp only [orient_test_eq_volumeTerm] at h
  split_ifs at h with hneg
  · have hf : face1 = ⟨face.v0, face.v2, face.v1⟩ := (Option.some.inj h).symm
    subst hf
    refine ⟨Or.inr rfl, ?_⟩
    simp only
    rw [volumeTerm_swap, abs_of_neg (by linarith)]
  · have hf : face1 = face := (Option.some.inj h).symm
    subst hf
    exact ⟨Or.inl rfl, (abs_of_nonneg (by linarith)).symm⟩

theorem sum_map_nonneg {α : Type} (g : α → K) (l : List α) (h : ∀ a ∈ l, 0 ≤ g a) :
    0 ≤ (l.map g).sum := by
  induction l with
  | nil => simp
  | cons a as ih =>
    rw [List.map_cons, List.sum_cons]
    exact add_nonneg (h a (List.mem_cons_self _ _))
      (ih (fun b hb => h b (List.mem_cons_of_mem _ hb)))

/-- C17. On a mesh with at least one node and face indices in range, `MakeFacesOriented`
returns; for every face the term `(p1 - c).((p2 - c) x (p3 - c)) / 6` of the volume sum
(`c` the mean of the nodes) taken on the face as it is afterwards is the absolute value
of the term taken on the face as it was before, hence not negative; and
`CalculateCellVolume` on the resulting mesh returns a value that is not negative. -/
theorem makeFacesOriented_volume_terms_nonneg (m : CellMesh K) (_hne : m.nodes_ ≠ [])
    (hr : FacesInRange m.nodes_.length m.faces_) :
    ∃ m1, MakeFacesOriented m = some m1 ∧
      (∀ (f : Nat) (face : FaceType), m.faces_[f]? = some face →
        ∃ face1 p1 p2 p3 q1 q2 q3, m1.faces_[f]? = some face1 ∧
          nodeAt m.nodes_ face.v0 = some p1 ∧ nodeAt m.nodes_ face.v1 = some p2 ∧
          nodeAt m.nodes_ face.v2 = some p3 ∧
          nodeAt m1.nodes_ face1.v0 = some q1 ∧ nodeAt m1.nodes_ face1.v1 = some q2 ∧
          nodeAt m1.nodes_ face1.v2 = some q3 ∧
          volumeTerm (centerOfMass m1.nodes_) q1 q2 q3
            = |volumeTerm (centerOfMass m.nodes_) p1 p2 p3| ∧
          0 ≤ volumeTerm (centerOfMass m1.nodes_) q1 q2 q3) ∧
      ∃ volume, CalculateCellVolume m1 = some volume ∧ 0 ≤ volume := by
  obtain ⟨faces1, hf1, hm⟩ := makeFacesOriented_isSome m hr
  have hr1 : FacesInRange m.nodes_.length faces1 := oriented_facesInRange _ _ _ _ _ hf1 hr
  refine ⟨_, hm, ?_, ?_⟩
  · intro f face hface
    obtain ⟨face1, hface1, horient⟩ := mapOpt_getElem? hf1 hface
    obtain ⟨h0, h1, h2⟩ := facesInRange_face hr (List.getElem?_mem hface)
    obtain ⟨g0, g1, g2⟩ := facesInRange_face hr1 (List.getElem?_mem hface1)
    obtain ⟨_, hterm⟩ := orientFace_volumeTerm _ _ face face1 h0 h1 h2 horient
    exact ⟨face1, _, _, _, _, _, _, hface1, nodeAt_eq_pointOf _ _ h0,
      nodeAt_eq_pointOf _ _ h1, nodeAt_eq_pointOf _ _ h2, nodeAt_eq_pointOf _ _ g0,
      nodeAt_eq_pointOf _ _ g1, nodeAt_eq_pointOf _ _ g2, hterm, hterm ▸ abs_nonneg _⟩
  · refine ⟨_, calculateCellVolume_eq _ hr1, ?_⟩
    refine sum_map_nonneg _ _ (fun face1 hface1 => ?_)
    obtain ⟨face, hface, horient⟩ := mapOpt_mem hf1 hface1
    obtain ⟨h0, h1, h2⟩ := facesInRange_face hr hface
    rw [(orientFace_volumeTerm _ _ face face1 h0 h1 h2 horient).2]
    exact abs_nonneg _

/-- C17 on the tetrahedron with inward winding. -/
theorem makeFacesOriented_volume_terms_nonneg_witness :
    (meshOf (tetraNodes ℚ) tetraFacesInward).nodes_ ≠ [] ∧
    FacesInRange (meshOf (tetraNodes ℚ) tetraFacesInward).nodes_.length
      (meshOf (tetraNodes ℚ) tetraFacesInward).faces_ ∧
    ∃ m1, MakeFacesOriented (meshOf (tetraNodes ℚ) tetraFacesInward) = some m1 ∧
      (∀ (f : Nat) (face : FaceType),
        (meshOf (tetraNodes ℚ) tetraFacesInward).faces_[f]? = some face →
        ∃ face1 p1 p2 p3 q1 q2 q3, m1.faces_[f]? = some face1 ∧
          nodeAt (meshOf (tetraNodes ℚ) tetraFacesInward).nodes_ face.v0 = some p1 ∧
          nodeAt (meshOf (tetraNodes ℚ) tetraFacesInward).nodes_ face.v1 = some p2 ∧
          nodeAt (meshOf (tetraNodes ℚ) tetraFacesInward).nodes_ face.v2 = some p3 ∧
          nodeAt m1.nodes_ face1.v0 = some q1 ∧ nodeAt m1.nodes_ face1.v1 = some q2 ∧
          nodeAt m1.nodes_ face1.v2 = some q3 ∧
          volumeTerm (centerOfMass m1.nodes_) q1 q2 q3
            = |volumeTerm (centerOfMass (meshOf (tetraNodes ℚ) tetraFacesInward).nodes_)
                p1 p2 p3| ∧
          0 ≤ volumeTerm (centerOfMass m1.nodes_) q1 q2 q3) ∧
      ∃ volume, CalculateCellVolume m1 = some volume ∧ 0 ≤ volume :=
  ⟨by simp [meshOf, tetraNodes], by decide,
    makeFacesOriented_volume_terms_nonneg (meshOf (tetraNodes ℚ) tetraFacesInward)
      (by simp [meshOf, tetraNodes]) (by decide)⟩

/-! ## C18: `MakeFacesOriented` changes the winding only -/

end CellMesh

namespace CellMesh

/-! ## C11: the loader rescales every vertex onto the sphere -/

theorem squaredNorm_nonneg {K : Type} [LinearOrderedField K] (a : Vec3 K) :
    0 ≤ a.squaredNorm := by
  simp only [Vec3.squaredNorm, Vec3.dot]
  nlinarith [mul_self_nonneg a.x, mul_self_nonneg a.y, mul_self_nonneg a.z]

theorem squaredNorm_eq_zero {K : Type} [LinearOrderedField K] (a : Vec3 K) :
    a.squaredNorm = 0 ↔ a = Vec3.zero := by
  constructor
  · intro h
    simp only [Vec3.squaredNorm, Vec3.dot] at h
    have hx : a.x * a.x = 0 := by
      nlinarith [mul_self_nonneg a.x, mul_self_nonneg a.y, mul_self_nonneg a.z]
    have hy : a.y * a.y = 0 := by
      nlinarith [mul_self_nonneg a.x, mul_self_nonneg a.y, mul_self_nonneg a.z]
    have hz : a.z * a.z = 0 := by
      nlinarith [mul_self_nonneg a.x, mul_self_nonneg a.y, mul_self_nonneg a.z]
    obtain ⟨x, y, z⟩ := a
    simp only [mul_self_eq_zero] at hx hy hz
    subst hx; subst hy; subst hz
    rfl
  · rintro rfl
    simp [Vec3.squaredNorm, Vec3.dot, Vec3.zero]

theorem construct_nodes {K : Type} [LinearOrderedField K] {sqrt : K → K} {radius : K}
    {vertexRecords : List (K × K × K)} {faceRecords : List (Int × Int × Int × Int)}
    {m : CellMesh K} (h : construct sqrt radius vertexRecords faceRecords = some m) :
    m.nodes_ = vertexRecords.map (rescaleVertex sqrt radius) := by
  obtain ⟨_, _, _, _, _, _, _, _, _, _, _, hc⟩ :=
    construct_eq sqrt radius vertexRecords faceRecords (construct_some_inRange h)
  have hm := Option.some.inj (h.symm.trans hc)
  subst hm
  rfl

/-- C11. For a target radius `R ≥ 0` and an input vertex `(x, y, z)` other than the
origin, the node computed from the vertex record is `(R / |v|) * (x, y, z)` with
`|v| = sqrt(x² + y² + z²)`, the factor `R / |v|` is not negative, and the Euclidean
distance of the node from the origin is exactly `R`; whenever the constructor returns,
the nodes it has stored are the vertex records rescaled in this way, in order. -/
theorem rescaleVertex_lies_on_sphere (R x y z : ℝ) (hR : 0 ≤ R)
    (hv : (x, y, z) ≠ ((0, 0, 0) : ℝ × ℝ × ℝ)) :
    rescaleVertex Real.sqrt R (x, y, z)
      = ⟨R / Real.sqrt (x * x + y * y + z * z) * x,
         R / Real.sqrt (x * x + y * y + z * z) * y,
         R / Real.sqrt (x * x + y * y + z * z) * z⟩ ∧
    0 ≤ R / Real.sqrt (x * x + y * y + z * z) ∧
    (rescaleVertex Real.sqrt R (x, y, z)).norm Real.sqrt = R ∧
    ∀ (vertexRecords : List (ℝ × ℝ × ℝ)) (faceRecords : List (Int × Int × Int × Int))
      (m : CellMesh ℝ), construct Real.sqrt R vertexRecords faceRecords = some m →
      m.nodes_ = vertexRecords.map (rescaleVertex Real.sqrt R) := by
  have hq : 0 < x * x + y * y + z * z := by
    have hnn : 0 ≤ x * x + y * y + z * z :=
      add_nonneg (add_nonneg (mul_self_nonneg x) (mul_self_nonneg y)) (mul_self_nonneg z)
    rcases hnn.lt_or_eq with h | h
    · exact h
    · exfalso
      apply hv
      have hx : x = 0 := by nlinarith [mul_self_nonneg x, mul_self_nonneg y, mul_self_nonneg z]
      have hy : y = 0 := by nlinarith [mul_self_nonneg x, mul_self_nonneg y, mul_self_nonneg z]
      have hz : z = 0 := by nlinarith [mul_self_nonneg x, mul_self_nonneg y, mul_self_nonneg z]
      rw [hx, hy, hz]
  have hn : 0 < Real.sqrt (x * x + y * y + z * z) := Real.sqrt_pos.2 hq
  have hnn : Real.sqrt (x * x + y * y + z * z) * Real.sqrt (x * x + y * y + z * z)
      = x * x + y * y + z * z := Real.mul_self_sqrt hq.le
  refine ⟨?_, div_nonneg hR hn.le, ?_, fun _ _ _ h => construct_nodes h⟩
  · simp only [rescaleVertex, mul_comm]
  · simp only [rescaleVertex, Vec3.norm, Vec3.squaredNorm, Vec3.dot]
    have hne : Real.sqrt (x * x + y * y + z * z) ≠ 0 := hn.ne'
    have hval : x * (R / Real.sqrt (x * x + y * y + z * z))
          * (x * (R / Real.sqrt (x * x + y * y + z * z)))
        + y * (R / Real.sqrt (x * x + y * y + z * z))
          * (y * (R / Real.sqrt (x * x + y * y + z * z)))
        + z * (R / Real.sqrt (x * x + y * y + z * z))
          * (z * (R / Real.sqrt (x * x + y * y + z * z))) = R * R := by
      have h1 : x * (R / Real.sqrt (x * x + y * y + z * z))
            * (x * (R / Real.sqrt (x * x + y * y + z * z)))
          + y * (R / Real.sqrt (x * x + y * y + z * z))
            * (y * (R / Real.sqrt (x * x + y * y + z * z)))
          + z * (R / Real.sqrt (x * x + y * y + z * z))
            * (z * (R / Real.sqrt (x * x + y * y + z * z)))
          = (x * x + y * y + z * z) * (R * R)
            / (Real.sqrt (x * x + y * y + z * z) * Real.sqrt (x * x + y * y + z * z)) := by
        field_simp
        ring
      rw [h1, hnn]
      field_simp
    rw [hval]
    exact Real.sqrt_mul_self hR

/-- C11 for the radius `2` and the vertex `(3, 4, 0)`. -/
theorem rescaleVertex_lies_on_sphere_witness :
    (0 : ℝ) ≤ 2 ∧ ((3, 4, 0) : ℝ × ℝ × ℝ) ≠ (0, 0, 0) ∧
    (rescaleVertex Real.sqrt 2 ((3, 4, 0) : ℝ × ℝ × ℝ)).norm Real.sqrt = 2 :=
  ⟨by norm_num, by simp,
    (rescaleVertex_lies_on_sphere 2 3 4 0 (by norm_num) (by simp)).2.2.1⟩

/-! ## C16: `FaceArea` is the area of the triangle -/

theorem heron_eq_sqrt_radicand {K : Type} [LinearOrderedField K] (sqrt : K → K)
    (p0 p1 p2 : Vec3 K) : heron sqrt p0 p1 p2 = sqrt (heronRadicand sqrt p0 p1 p2) := rfl

/-- The number under the square root of Heron's formula is a quarter of the squared length
of the cross product of two edge vectors. -/
theorem heronRadicand_eq (p0 p1 p2 : Vec3 ℝ) :
    heronRadicand Real.sqrt p0 p1 p2 = ((p1.sub p0).cross (p2.sub p0)).squaredNorm / 4 := by
  have ha := Real.mul_self_sqrt (squaredNorm_nonneg (p0.sub p1))
  have hb := Real.mul_self_sqrt (squaredNorm_nonneg (p1.sub p2))
  have hc := Real.mul_self_sqrt (squaredNorm_nonneg (p2.sub p0))
  simp only [heronRadicand, Vec3.norm]
  generalize Real.sqrt (p0.sub p1).squaredNorm = a at ha ⊢
  generalize Real.sqrt (p1.sub p2).squaredNorm = b at hb ⊢
  generalize Real.sqrt (p2.sub p0).squaredNorm = c at hc ⊢
  have h1 : (a + b + c) / 2 * ((a + b + c) / 2 - a) * ((a + b + c) / 2 - b)
      * ((a + b + c) / 2 - c)
      = (2 * (a * a) * (b * b) + 2 * (b * b) * (c * c) + 2 * (c * c) * (a * a)
          - (a * a) * (a * a) - (b * b) * (b * b) - (c * c) * (c * c)) / 16 := by
    ring
  rw [h1, ha, hb, hc]
  simp only [Vec3.squaredNorm, Vec3.dot, Vec3.cross, Vec3.sub]
  ring

theorem heron_eq_half_norm_cross (p0 p1 p2 : Vec3 ℝ) :
    heron Real.sqrt p0 p1 p2 = ((p1.sub p0).cross (p2.sub p0)).norm Real.sqrt / 2 := by
  rw [heron_eq_sqrt_radicand, heronRadicand_eq, Vec3.norm]
  rw [Real.sqrt_eq_iff_mul_self_eq
    (div_nonneg (squaredNorm_nonneg _) (by norm_num))
    (div_nonneg (Real.sqrt_nonneg _) (by norm_num))]
  have h := Real.mul_self_sqrt (squaredNorm_nonneg ((p1.sub p0).cross (p2.sub p0)))
  linear_combination (-(1 / 4 : ℝ)) * h

/-- C16. For a face with in-range indices and vertex positions `p0`, `p1`, `p2`, the value
`FaceArea` returns, Heron's `sqrt(s(s-a)(s-b)(s-c))`, is `|(p1 - p0) x (p2 - p0)| / 2`; the
number under the square root is not negative; and the area is `0` exactly when the cross
product `(p1 - p0) x (p2 - p0)` is the zero vector, that is, when the three points are
collinear. -/
theorem faceArea_is_triangle_area (m : CellMesh ℝ) (f : Nat) (face : FaceType)
    (p0 p1 p2 : Vec3 ℝ) (hf : m.faces_[f]? = some face)
    (h0 : nodeAt m.nodes_ face.v0 = some p0) (h1 : nodeAt m.nodes_ face.v1 = some p1)
    (h2 : nodeAt m.nodes_ face.v2 = some p2) :
    FaceArea Real.sqrt m f = some (Real.sqrt (heronRadicand Real.sqrt p0 p1 p2)) ∧
    FaceArea Real.sqrt m f
      = some (((p1.sub p0).cross (p2.sub p0)).norm Real.sqrt / 2) ∧
    0 ≤ heronRadicand Real.sqrt p0 p1 p2 ∧
    (FaceArea Real.sqrt m f = some 0 ↔ (p1.sub p0).cross (p2.sub p0) = Vec3.zero) := by
  have harea : FaceArea Real.sqrt m f = some (heron Real.sqrt p0 p1 p2) := by
    simp only [FaceArea, hf, h0, h1, h2]
  refine ⟨by rw [harea, heron_eq_sqrt_radicand], by rw [harea, heron_eq_half_norm_cross],
    ?_, ?_⟩
  · rw [heronRadicand_eq]
    exact div_nonneg (squaredNorm_nonneg _) (by norm_num)
  · rw [harea, heron_eq_half_norm_cross, Option.some.injEq, Vec3.norm]
    rw [div_eq_zero_iff, Real.sqrt_eq_zero (squaredNorm_nonneg _), squaredNorm_eq_zero]
    constructor
    · rintro (h | h)
      · exact h
      · norm_num at h
    · exact Or.inl

/-- C16 on a right triangle with legs of length one: the area is a half of the length of
the cross product `(0, 0, 1)`. -/
theorem faceArea_is_triangle_area_witness :
    (meshOf [(⟨0, 0, 0⟩ : Vec3 ℝ), ⟨1, 0, 0⟩, ⟨0, 1, 0⟩] [⟨0, 1, 2⟩]).faces_[0]?
      = some ⟨0, 1, 2⟩ ∧
    nodeAt (meshOf [(⟨0, 0, 0⟩ : Vec3 ℝ), ⟨1, 0, 0⟩, ⟨0, 1, 0⟩] [⟨0, 1, 2⟩]).nodes_ 0
      = some ⟨0, 0, 0⟩ ∧
    nodeAt (meshOf [(⟨0, 0, 0⟩ : Vec3 ℝ), ⟨1, 0, 0⟩, ⟨0, 1, 0⟩] [⟨0, 1, 2⟩]).nodes_ 1
      = some ⟨1, 0, 0⟩ ∧
    nodeAt (meshOf [(⟨0, 0, 0⟩ : Vec3 ℝ), ⟨1, 0, 0⟩, ⟨0, 1, 0⟩] [⟨0, 1, 2⟩]).nodes_ 2
      = some ⟨0, 1, 0⟩ ∧
    FaceArea Real.sqrt (meshOf [⟨0, 0, 0⟩, ⟨1, 0, 0⟩, ⟨0, 1, 0⟩] [⟨0, 1, 2⟩]) 0
      = some (((Vec3.sub (⟨1, 0, 0⟩ : Vec3 ℝ) ⟨0, 0, 0⟩).cross
          (Vec3.sub ⟨0, 1, 0⟩ ⟨0, 0, 0⟩)).norm Real.sqrt / 2) :=
  ⟨rfl, rfl, rfl, rfl,
    (faceArea_is_triangle_area (meshOf [⟨0, 0, 0⟩, ⟨1, 0, 0⟩, ⟨0, 1, 0⟩] [⟨0, 1, 2⟩]) 0
      ⟨0, 1, 2⟩ ⟨0, 0, 0⟩ ⟨1, 0, 0⟩ ⟨0, 1, 0⟩ rfl rfl rfl rfl).2.1⟩

end CellMesh

namespace CellMesh

/-! ## C13: vertex normals -/

theorem sqrt_four : Real.sqrt 4 = 2 := by
  rw [show (4 : ℝ) = 2 * 2 by norm_num]
  exact Real.sqrt_mul_self (by norm_num)

theorem rescale_flatTriangleVertexRecords :
    (flatTriangleVertexRecords ℝ).map (rescaleVertex Real.sqrt 1)
      = [⟨1, 0, 0⟩, ⟨0, 1, 0⟩, ⟨-1, 0, 0⟩] := by
  simp [flatTriangleVertexRecords, rescaleVertex]

end CellMesh

namespace CellMesh

/-! ## C12: the cell surface area is the sum of the cached face areas -/

theorem calculateCellSurfaceArea_eq_sum {K : Type} [LinearOrderedField K] (m : CellMesh K) :
    CalculateCellSurfaceArea m = m.surface_areas_for_faces_.sum := by
  have h := foldl_add_eq_sum (fun a : K => a) m.surface_areas_for_faces_ 0
  simpa [CalculateCellSurfaceArea] using h

theorem construct_of_loadTopology {K : Type} [LinearOrderedField K] {sqrt : K → K}
    {radius : K} {vertexRecords : List (K × K × K)}
    {faceRecords : List (Int × Int × Int × Int)} {m0 : CellMesh K}
    (h : loadTopology sqrt radius vertexRecords faceRecords = some m0) :
    construct sqrt radius vertexRecords faceRecords = initGeometry sqrt m0 := by
  simp only [construct, h]

/-- The face areas the constructor caches: Heron's value of every face, at the nodes the
loader stored. -/
theorem construct_surface_areas {K : Type} [LinearOrderedField K] (sqrt : K → K) (radius : K)
    (vertexRecords : List (K × K × K)) (faceRecords : List (Int × Int × Int × Int))
    (hr : FacesInRange vertexRecords.length (faceRecords.map readFace)) :
    ∃ m, construct sqrt radius vertexRecords faceRecords = some m ∧
      m.nodes_ = vertexRecords.map (rescaleVertex sqrt radius) ∧
      m.surface_areas_for_faces_.length = faceRecords.length ∧
      ∀ (f : Nat) (face : FaceType), (faceRecords.map readFace)[f]? = some face →
        m.surface_areas_for_faces_[f]? = some (heron sqrt
          (pointOf (vertexRecords.map (rescaleVertex sqrt radius)) face.v0)
          (pointOf (vertexRecords.map (rescaleVertex sqrt radius)) face.v1)
          (pointOf (vertexRecords.map (rescaleVertex sqrt radius)) face.v2)) := by
  obtain ⟨adj, hadj, hlen, hinv, hload⟩ :=
    loadTopology_eq sqrt radius vertexRecords faceRecords hr
  have hw : WellFormed (K := K)
      { nodes_ := vertexRecords.map (rescaleVertex sqrt radius),
        faces_ := faceRecords.map readFace,
        edges_ := (buildEdges (faceRecords.map readFace)).1,
        adjacent_faces_for_edges_ := (buildEdges (faceRecords.map readFace)).2,
        adjacent_faces_for_nodes_ := adj,
        surface_areas_for_faces_ := [], surface_areas_for_nodes_ := [],
        normals_for_faces_ := [], normals_for_nodes_ := [],
        initial_cell_surface_area_ := 0, initial_cell_volume_ := 0 } :=
    ⟨by simpa using hr, by simpa using hlen, nodeInv_lt_length hinv⟩
  obtain ⟨areas, _, _, _, _, hareas, _, _, hgeo⟩ := initGeometry_eq sqrt _ hw
  refine ⟨_, (construct_of_loadTopology hload).trans hgeo, rfl, ?_, ?_⟩
  · have h := mapOpt_length hareas
    simp only [List.length_range, List.length_map] at h
    exact h
  · intro f face hface
    have hlt : f < (faceRecords.map readFace).length := (List.getElem?_eq_some_iff.1 hface).1
    have hrange : (List.range (faceRecords.map readFace).length)[f]? = some f := by
      rw [List.getElem?_range hlt]
    obtain ⟨a, ha, hval⟩ := mapOpt_getElem? hareas hrange
    rw [faceArea_eq sqrt _ hw.1 f face hface] at hval
    simp only at ha hval ⊢
    rw [ha, ← hval]

theorem sqrt_sixty_four : Real.sqrt 64 = 8 := by
  rw [show (64 : ℝ) = 8 * 8 by norm_num]
  exact Real.sqrt_mul_self (by norm_num)

theorem heron_flatTriangle :
    heron Real.sqrt (⟨1, 0, 0⟩ : Vec3 ℝ) ⟨0, 1, 0⟩ ⟨-1, 0, 0⟩ = 1 := by
  rw [heron_eq_half_norm_cross]
  have h : ((Vec3.sub (⟨0, 1, 0⟩ : Vec3 ℝ) ⟨1, 0, 0⟩).cross
      (Vec3.sub ⟨-1, 0, 0⟩ ⟨1, 0, 0⟩)).squaredNorm = 4 := by
    simp [Vec3.sub, Vec3.cross, Vec3.squaredNorm, Vec3.dot]
    norm_num
  rw [Vec3.norm, h, sqrt_four]
  norm_num

theorem heron_flatTriangleDoubled :
    heron Real.sqrt (⟨2, 0, 0⟩ : Vec3 ℝ) ⟨0, 2, 0⟩ ⟨-2, 0, 0⟩ = 4 := by
  rw [heron_eq_half_norm_cross]
  have h : ((Vec3.sub (⟨0, 2, 0⟩ : Vec3 ℝ) ⟨2, 0, 0⟩).cross
      (Vec3.sub ⟨-2, 0, 0⟩ ⟨2, 0, 0⟩)).squaredNorm = 64 := by
    simp [Vec3.sub, Vec3.cross, Vec3.squaredNorm, Vec3.dot]
    norm_num
  rw [Vec3.norm, h, sqrt_sixty_four]
  norm_num

theorem orientFace_flatTriangle :
    mapOpt (orientFace (centerOfMass [(⟨1, 0, 0⟩ : Vec3 ℝ), ⟨0, 1, 0⟩, ⟨-1, 0, 0⟩])
      [⟨1, 0, 0⟩, ⟨0, 1, 0⟩, ⟨-1, 0, 0⟩]) (triangleFaceRecords.map readFace)
      = some [⟨0, 1, 2⟩] := by
  simp [triangleFaceRecords, readFace, mapOpt, orientFace, nodeAt, centerOfMass,
    Vec3.add, Vec3.zero, Vec3.divScalar, Vec3.sub, Vec3.cross, Vec3.dot]

/-- C12, as stated, fails: the constructor returns a mesh for the flat triangle, of area
`1`; after every node has been moved to twice its distance from the origin, the face has
the area `4` at the current positions (`FaceArea(0)` returns `4`), and
`CalculateCellSurfaceArea` still returns `1`, the sum of the cached face areas. -/
theorem cell_surface_area_is_not_recomputed :
    ∃ m, construct Real.sqrt 1 (flatTriangleVertexRecords ℝ) triangleFaceRecords = some m ∧
      m.nodes_ = [⟨1, 0, 0⟩, ⟨0, 1, 0⟩, ⟨-1, 0, 0⟩] ∧
      m.faces_ = [⟨0, 1, 2⟩] ∧
      CalculateCellSurfaceArea m = 1 ∧
      CalculateCellSurfaceArea { m with nodes_ := flatTriangleNodesDoubled ℝ } = 1 ∧
      FaceArea Real.sqrt { m with nodes_ := flatTriangleNodesDoubled ℝ } 0 = some 4 := by
  obtain ⟨_, areas, _, faces1, _, _, _, _, _, hf1, _, hc⟩ :=
    construct_eq Real.sqrt 1 (flatTriangleVertexRecords ℝ) triangleFaceRecords (by decide)
  obtain ⟨m, hm, _, hlen, hareas⟩ :=
    construct_surface_areas Real.sqrt 1 (flatTriangleVertexRecords ℝ) triangleFaceRecords
      (by decide)
  rw [rescale_flatTriangleVertexRecords] at hf1 hc hareas
  have hfaces : faces1 = [⟨0, 1, 2⟩] :=
    Option.some.inj (hf1.symm.trans orientFace_flatTriangle)
  subst hfaces
  have hmeq := Option.some.inj (hm.symm.trans hc)
  subst hmeq
  have h0 := hareas 0 ⟨0, 1, 2⟩ rfl
  simp only at hlen h0
  have hp0 : pointOf [(⟨1, 0, 0⟩ : Vec3 ℝ), ⟨0, 1, 0⟩, ⟨-1, 0, 0⟩] 0 = ⟨1, 0, 0⟩ := rfl
  have hp1 : pointOf [(⟨1, 0, 0⟩ : Vec3 ℝ), ⟨0, 1, 0⟩, ⟨-1, 0, 0⟩] 1 = ⟨0, 1, 0⟩ := rfl
  have hp2 : pointOf [(⟨1, 0, 0⟩ : Vec3 ℝ), ⟨0, 1, 0⟩, ⟨-1, 0, 0⟩] 2 = ⟨-1, 0, 0⟩ := rfl
  rw [hp0, hp1, hp2, heron_flatTriangle] at h0
  have hareas1 : areas = [1] := by
    match areas, hlen, h0 with
    | [a], _, h => simpa using h
  subst hareas1
  refine ⟨_, hc, rfl, rfl, ?_, ?_, ?_⟩
  · simp [CalculateCellSurfaceArea]
  · simp [CalculateCellSurfaceArea]
  · rw [← heron_flatTriangleDoubled]
    rfl

/-- C12, amended. `CalculateCellSurfaceArea` returns the sum of the cached per-face areas
`surface_areas_for_faces_`, so a change of the node positions alone does not change the
value it returns; once `CalculateFaceSurfaceAreas` has been called at the current node
positions, it returns the sum over all faces of `FaceArea(f)` at those positions. -/
theorem calculateCellSurfaceArea_sums_cached_face_areas {K : Type} [LinearOrderedField K]
    (sqrt : K → K) (m : CellMesh K) (hr : FacesInRange m.nodes_.length m.faces_) :
    CalculateCellSurfaceArea m = m.surface_areas_for_faces_.sum ∧
    (∀ nodes : List (Vec3 K),
      CalculateCellSurfaceArea { m with nodes_ := nodes } = CalculateCellSurfaceArea m) ∧
    ∃ m1 areas, CalculateFaceSurfaceAreas sqrt m = some m1 ∧
      m1.nodes_ = m.nodes_ ∧ m1.faces_ = m.faces_ ∧
      mapOpt (FaceArea sqrt m) (List.range m.faces_.length) = some areas ∧
      CalculateCellSurfaceArea m1 = areas.sum := by
  refine ⟨calculateCellSurfaceArea_eq_sum m, fun _ => rfl, ?_⟩
  obtain ⟨areas, hareas, _, hcalc⟩ := calculateFaceSurfaceAreas_eq sqrt m hr
  exact ⟨_, areas, hcalc, rfl, rfl, hareas, calculateCellSurfaceArea_eq_sum _⟩

/-- The amended C12 on the tetrahedron. -/
theorem calculateCellSurfaceArea_sums_cached_face_areas_witness :
    FacesInRange (meshOf (tetraNodes ℝ) tetraFaces).nodes_.length
      (meshOf (tetraNodes ℝ) tetraFaces).faces_ ∧
    ∃ m1 areas, CalculateFaceSurfaceAreas Real.sqrt (meshOf (tetraNodes ℝ) tetraFaces)
        = some m1 ∧
      m1.nodes_ = (meshOf (tetraNodes ℝ) tetraFaces).nodes_ ∧
      m1.faces_ = (meshOf (tetraNodes ℝ) tetraFaces).faces_ ∧
      mapOpt (FaceArea Real.sqrt (meshOf (tetraNodes ℝ) tetraFaces))
        (List.range (meshOf (tetraNodes ℝ) tetraFaces).faces_.length) = some areas ∧
      CalculateCellSurfaceArea m1 = areas.sum :=
  ⟨by decide, (calculateCellSurfaceArea_sums_cached_face_areas Real.sqrt
    (meshOf (tetraNodes ℝ) tetraFaces) (by decide)).2.2⟩

end CellMesh
